import Mathlib

/-!
# BluOS: a shallow embedding of `src/kernel/pmm/pmm.c`, `src/std/memory.c` and `kernel.c`

The process-wide singleton returned by `pmm_get` is passed explicitly, and so
are the byte memory the routines of memory.c work on and the globals of the
text terminal.
`uint32_t` values are natural numbers, reduced modulo `2^32` wherever the C
arithmetic can wrap.  A call of `panic` ends the computation: every operation
that can reach one returns `Except panic_reason _`.
-/

namespace BluOS

/-! ## Constants and types of the headers -/

/-- Modelled from the spec: the constant `PAGING_FRAME_SIZE` of the paging
headers; a frame is a 4096-byte aligned region. -/
def PAGING_FRAME_SIZE : Nat := 4096

/-- Modelled from the spec: `BITS_PER_BITMAP_ENTRY`; the entries of the bitmap
are `uint32_t` words (pmm.c:14,21), hence 32 bits each. -/
def BITS_PER_BITMAP_ENTRY : Nat := 32

/-- Modelled from the spec: `ADDRESS_SPACE_BITMAP_SIZE`; the bitmap covers the
2^20 frames of the 4 GiB address space, i.e. 2^20 / 32 words. -/
def ADDRESS_SPACE_BITMAP_SIZE : Nat := 32768

/-- Number of values of a `uint32_t`. -/
def UINT32_MOD : Nat := 4294967296

/-- Number of frames covered by a bitmap
(`ADDRESS_SPACE_BITMAP_SIZE * BITS_PER_BITMAP_ENTRY`). -/
def FRAME_COUNT : Nat := ADDRESS_SPACE_BITMAP_SIZE * BITS_PER_BITMAP_ENTRY

/-- Modelled from the spec: the macro `BITMAP_BIT_INDEX(entry, bit)`, the frame
index of bit `bit` of word `entry`. -/
def BITMAP_BIT_INDEX (entry_idx bit_idx : Nat) : Nat :=
  entry_idx * BITS_PER_BITMAP_ENTRY + bit_idx

/-- The reasons for which pmm.c calls `panic`. -/
inductive panic_reason where
  /-- pmm.c:43, first_usable_pmm_index() found nothing! -/
  | found_nothing
  /-- pmm.c:49 and pmm.c:64, region_start_addr was not page aligned -/
  | region_start_not_aligned
  /-- pmm.c:52 and pmm.c:67, region_len was not frame aligned -/
  | region_len_not_aligned
  /-- pmm.c:135, PMM double alloc -/
  | double_alloc
  /-- pmm.c:153, attempted to free non-allocated frame -/
  | free_non_allocated
  deriving DecidableEq, Repr

/-- The type `address_space_frame_bitmap_t`: the array `set` of `uint32_t`
words, read by word index (pmm.c:14 reads `set[i]`). -/
structure address_space_frame_bitmap_t where
  set : Nat → Nat

/-- The type `pmm_state_t` (pmm.c:14,21): the two bitmaps of the PMM. -/
structure pmm_state_t where
  system_accessible_frames : address_space_frame_bitmap_t
  allocation_state : address_space_frame_bitmap_t

/-- Modelled from the spec: the type of a boot-info memory region. -/
inductive region_type where
  | REGION_USABLE
  | REGION_RESERVED
  | REGION_ACPI
  deriving DecidableEq, Repr

/-- Modelled from the spec: `physical_memory_region_t` of the boot-info
record, with the fields pmm.c:98-105 reads. -/
structure physical_memory_region_t where
  type : region_type
  addr : Nat
  len : Nat

/-- Modelled from the spec: the framebuffer extent of the boot-info record. -/
structure framebuffer_info_t where
  address : Nat
  size : Nat

/-- Modelled from the spec: the boot-info record, with the fields `pmm_init`
reads; `mem_region_count` is the length of `mem_regions`. -/
structure boot_info_t where
  mem_regions : List physical_memory_region_t
  kernel_image_start : Nat
  kernel_image_size : Nat
  framebuffer : framebuffer_info_t

/-! ## The address-space bitmap helpers -/

/-- The C expression `1 << j` as a 32-bit value. -/
def bit_mask (j : Nat) : Nat := (1 <<< j) % UINT32_MOD

/-- The C expression `~x` on a 32-bit value. -/
def bnot32 (x : Nat) : Nat := (x % UINT32_MOD) ^^^ (UINT32_MOD - 1)

/-- Bit `i` of a bitmap, read the way pmm.c:31 and pmm.c:35 read it: the word
`set[i / 32]` masked with `1 << (i % 32)`. -/
def bitmap_bit (bitmap : address_space_frame_bitmap_t) (i : Nat) : Bool :=
  bitmap.set (i / BITS_PER_BITMAP_ENTRY) &&& bit_mask (i % BITS_PER_BITMAP_ENTRY) != 0

/-- Modelled from the spec: `addr_space_frame_floor`, which rounds an address
down to a frame boundary. -/
def addr_space_frame_floor (addr : Nat) : Nat :=
  addr - addr % PAGING_FRAME_SIZE

/-- Modelled from the spec: `addr_space_frame_ceil`, which rounds an address
up to a frame boundary (in 32-bit arithmetic). -/
def addr_space_frame_ceil (addr : Nat) : Nat :=
  if addr % PAGING_FRAME_SIZE = 0 then addr
  else (addr - addr % PAGING_FRAME_SIZE + PAGING_FRAME_SIZE) % UINT32_MOD

/-- Modelled from the spec: `addr_space_bitmap_check_address`, the test
operation of the bitmap at the frame of `addr` (frame index `addr / 4096`). -/
def addr_space_bitmap_check_address (bitmap : address_space_frame_bitmap_t)
    (addr : Nat) : Bool :=
  bitmap_bit bitmap (addr / PAGING_FRAME_SIZE)

/-- Modelled from the spec: `addr_space_bitmap_set_address`, the set operation
of the bitmap at the frame of `addr`: `set[idx] |= 1 << bit`. -/
def addr_space_bitmap_set_address (bitmap : address_space_frame_bitmap_t)
    (addr : Nat) : address_space_frame_bitmap_t :=
  let frame := addr / PAGING_FRAME_SIZE
  address_space_frame_bitmap_t.mk (fun k =>
    if k = frame / BITS_PER_BITMAP_ENTRY
    then bitmap.set k ||| bit_mask (frame % BITS_PER_BITMAP_ENTRY)
    else bitmap.set k)

/-- Modelled from the spec: `addr_space_bitmap_unset_address`, the clear
operation of the bitmap at the frame of `addr`: `set[idx] &= ~(1 << bit)`. -/
def addr_space_bitmap_unset_address (bitmap : address_space_frame_bitmap_t)
    (addr : Nat) : address_space_frame_bitmap_t :=
  let frame := addr / PAGING_FRAME_SIZE
  address_space_frame_bitmap_t.mk (fun k =>
    if k = frame / BITS_PER_BITMAP_ENTRY
    then bitmap.set k &&& bnot32 (bit_mask (frame % BITS_PER_BITMAP_ENTRY))
    else bitmap.set k)

/-! ## pmm.c -/

/-- The inner loop of `first_usable_pmm_index` (pmm.c:29-41) over the bits
`j, j+1, ...` of one pair of words; `n` is the number of iterations left. -/
def first_usable_bit (system_frames_entry pmm_frames_entry : Nat) :
    Nat → Nat → Option Nat
  | _, 0 => none
  | j, n + 1 =>
    if system_frames_entry &&& bit_mask j = 0 then
      first_usable_bit system_frames_entry pmm_frames_entry (j + 1) n
    else if pmm_frames_entry &&& bit_mask j ≠ 0 then
      first_usable_bit system_frames_entry pmm_frames_entry (j + 1) n
    else some j

/-- The outer loop of `first_usable_pmm_index` (pmm.c:13-42) over the words
`i, i+1, ...`; `n` is the number of iterations left.  Falling out of the loop
reaches the `panic` of pmm.c:43. -/
def first_usable_word (pmm : pmm_state_t) : Nat → Nat → Except panic_reason Nat
  | _, 0 => Except.error panic_reason.found_nothing
  | i, n + 1 =>
    let system_frames_entry := pmm.system_accessible_frames.set i
    if system_frames_entry = 0 then first_usable_word pmm (i + 1) n
    else
      let pmm_frames_entry := pmm.allocation_state.set i
      if bnot32 pmm_frames_entry = 0 then first_usable_word pmm (i + 1) n
      else
        match first_usable_bit system_frames_entry pmm_frames_entry 0
            BITS_PER_BITMAP_ENTRY with
        | some j => Except.ok (BITMAP_BIT_INDEX i j)
        | none => first_usable_word pmm (i + 1) n

/-- The function `first_usable_pmm_index` (pmm.c:12-45). -/
def first_usable_pmm_index (pmm : pmm_state_t) : Except panic_reason Nat :=
  first_usable_word pmm 0 ADDRESS_SPACE_BITMAP_SIZE

/-- The loop of `set_memory_region` (pmm.c:56-59) from counter `i`, with `n`
iterations left; the frame address is computed in 32-bit arithmetic. -/
def set_region_loop (region_start_addr : Nat) :
    address_space_frame_bitmap_t → Nat → Nat → address_space_frame_bitmap_t
  | bitmap, _, 0 => bitmap
  | bitmap, i, n + 1 =>
    let frame := (region_start_addr + i * PAGING_FRAME_SIZE) % UINT32_MOD
    set_region_loop region_start_addr
      (addr_space_bitmap_set_address bitmap frame) (i + 1) n

/-- The function `set_memory_region` (pmm.c:47-60). -/
def set_memory_region (bitmap : address_space_frame_bitmap_t)
    (region_start_addr region_len : Nat) :
    Except panic_reason address_space_frame_bitmap_t :=
  if region_start_addr % PAGING_FRAME_SIZE ≠ 0 then
    Except.error panic_reason.region_start_not_aligned
  else if region_len % PAGING_FRAME_SIZE ≠ 0 then
    Except.error panic_reason.region_len_not_aligned
  else
    let frames_in_region := region_len / PAGING_FRAME_SIZE
    Except.ok (set_region_loop region_start_addr bitmap 0 frames_in_region)

/-- The loop of `unset_memory_region` (pmm.c:71-74) from counter `i`, with `n`
iterations left. -/
def unset_region_loop (region_start_addr : Nat) :
    address_space_frame_bitmap_t → Nat → Nat → address_space_frame_bitmap_t
  | bitmap, _, 0 => bitmap
  | bitmap, i, n + 1 =>
    let frame := (region_start_addr + i * PAGING_FRAME_SIZE) % UINT32_MOD
    unset_region_loop region_start_addr
      (addr_space_bitmap_unset_address bitmap frame) (i + 1) n

/-- The function `unset_memory_region` (pmm.c:62-75). -/
def unset_memory_region (bitmap : address_space_frame_bitmap_t)
    (region_start_addr region_len : Nat) :
    Except panic_reason address_space_frame_bitmap_t :=
  if region_start_addr % PAGING_FRAME_SIZE ≠ 0 then
    Except.error panic_reason.region_start_not_aligned
  else if region_len % PAGING_FRAME_SIZE ≠ 0 then
    Except.error panic_reason.region_len_not_aligned
  else
    let frames_in_region := region_len / PAGING_FRAME_SIZE
    Except.ok (unset_region_loop region_start_addr bitmap 0 frames_in_region)

/-- The function `pmm_reserve_mem_region` (pmm.c:124-128). -/
def pmm_reserve_mem_region (pmm : pmm_state_t) (start size : Nat) :
    Except panic_reason pmm_state_t :=
  let aligned_start := addr_space_frame_floor start
  let aligned_size := addr_space_frame_ceil size
  match unset_memory_region pmm.system_accessible_frames aligned_start aligned_size with
  | Except.error e => Except.error e
  | Except.ok bitmap => Except.ok (pmm_state_t.mk bitmap pmm.allocation_state)

/-- The marking pass of `pmm_init` (pmm.c:97-107) over the regions of the
boot-info record. -/
def pmm_init_mark :
    address_space_frame_bitmap_t → List physical_memory_region_t →
    Except panic_reason address_space_frame_bitmap_t
  | bitmap, [] => Except.ok bitmap
  | bitmap, region :: rest =>
    if region.type ≠ region_type.REGION_USABLE then pmm_init_mark bitmap rest
    else
      let addr := addr_space_frame_ceil region.addr
      let len := addr_space_frame_floor region.len
      match set_memory_region bitmap addr len with
      | Except.error e => Except.error e
      | Except.ok marked => pmm_init_mark marked rest

/-- The state after the `memset` of pmm.c:93: both bitmaps zero. -/
def pmm_zero : pmm_state_t :=
  pmm_state_t.mk (address_space_frame_bitmap_t.mk (fun _ => 0))
    (address_space_frame_bitmap_t.mk (fun _ => 0))

/-- The function `pmm_init` (pmm.c:91-120), on the boot-info record that
`boot_info_get` returns. -/
def pmm_init (info : boot_info_t) : Except panic_reason pmm_state_t :=
  match pmm_init_mark pmm_zero.system_accessible_frames info.mem_regions with
  | Except.error e => Except.error e
  | Except.ok marked =>
    let pmm := pmm_state_t.mk marked pmm_zero.allocation_state
    match pmm_reserve_mem_region pmm 0 info.kernel_image_start with
    | Except.error e => Except.error e
    | Except.ok pmm1 =>
      match pmm_reserve_mem_region pmm1 info.kernel_image_start info.kernel_image_size with
      | Except.error e => Except.error e
      | Except.ok pmm2 =>
        let extra_identity_map_region_size := 1048576
        let kernel_max := (info.kernel_image_start + info.kernel_image_size) % UINT32_MOD
        match pmm_reserve_mem_region pmm2 kernel_max extra_identity_map_region_size with
        | Except.error e => Except.error e
        | Except.ok pmm3 =>
          pmm_reserve_mem_region pmm3 info.framebuffer.address info.framebuffer.size

/-- The function `pmm_alloc_address` (pmm.c:130-138). -/
def pmm_alloc_address (pmm : pmm_state_t) (address : Nat) :
    Except panic_reason pmm_state_t :=
  if addr_space_bitmap_check_address pmm.allocation_state address then
    Except.error panic_reason.double_alloc
  else
    Except.ok (pmm_state_t.mk pmm.system_accessible_frames
      (addr_space_bitmap_set_address pmm.allocation_state address))

/-- The function `pmm_alloc` (pmm.c:140-146): the frame address returned and
the state left behind. -/
def pmm_alloc (pmm : pmm_state_t) : Except panic_reason (Nat × pmm_state_t) :=
  match first_usable_pmm_index pmm with
  | Except.error e => Except.error e
  | Except.ok index =>
    let frame_address := (index * PAGING_FRAME_SIZE) % UINT32_MOD
    match pmm_alloc_address pmm frame_address with
    | Except.error e => Except.error e
    | Except.ok pmm1 => Except.ok (frame_address, pmm1)

/-- The function `pmm_free` (pmm.c:149-156). -/
def pmm_free (pmm : pmm_state_t) (frame_address : Nat) :
    Except panic_reason pmm_state_t :=
  if !addr_space_bitmap_check_address pmm.allocation_state frame_address then
    Except.error panic_reason.free_non_allocated
  else
    Except.ok (pmm_state_t.mk pmm.system_accessible_frames
      (addr_space_bitmap_unset_address pmm.allocation_state frame_address))

/-! ## Reading the state -/

/-- Frame `i` is in the accessible bitmap. -/
def accessible (pmm : pmm_state_t) (i : Nat) : Bool :=
  bitmap_bit pmm.system_accessible_frames i

/-- Frame `i` is in the allocated bitmap. -/
def allocated (pmm : pmm_state_t) (i : Nat) : Bool :=
  bitmap_bit pmm.allocation_state i

/-- Every word of the bitmap is a `uint32_t` value. -/
def bitmap_wf (bitmap : address_space_frame_bitmap_t) : Prop :=
  ∀ k, bitmap.set k < UINT32_MOD

/-- Both bitmaps of the state hold `uint32_t` words. -/
def pmm_wf (pmm : pmm_state_t) : Prop :=
  bitmap_wf pmm.system_accessible_frames ∧ bitmap_wf pmm.allocation_state

/-- Frame `f` is one of the frames the loop of pmm.c:71-74 clears when
`pmm_reserve_mem_region` is called with `start` and `size`. -/
def reserve_clears (start size f : Nat) : Prop :=
  ∃ k, k < addr_space_frame_ceil size / PAGING_FRAME_SIZE ∧
    (addr_space_frame_floor start + k * PAGING_FRAME_SIZE) % UINT32_MOD / PAGING_FRAME_SIZE = f

/-- Frame `f` is one of the frames the loop of pmm.c:56-59 sets when the
marking pass of `pmm_init` handles `region`. -/
def region_marks (region : physical_memory_region_t) (f : Nat) : Prop :=
  region.type = region_type.REGION_USABLE ∧
    ∃ k, k < addr_space_frame_floor region.len / PAGING_FRAME_SIZE ∧
      (addr_space_frame_ceil region.addr + k * PAGING_FRAME_SIZE) % UINT32_MOD
        / PAGING_FRAME_SIZE = f

/-- The boot-info record of the boot scenario: one usable region
`[0x100000, 0x1000000)`, the kernel image at `0x100000` of size `0x20000`, and
an empty framebuffer extent at `fb_address`. -/
def boot_scenario (fb_address : Nat) : boot_info_t :=
  boot_info_t.mk [physical_memory_region_t.mk region_type.REGION_USABLE 1048576 15728640]
    1048576 131072 (framebuffer_info_t.mk fb_address 0)

/-- A boot-info record whose only usable region, `[0x300800, 0x301800)`, does
not start on a frame boundary; the kernel image is that of the boot scenario. -/
def boot_unaligned_region : boot_info_t :=
  boot_info_t.mk [physical_memory_region_t.mk region_type.REGION_USABLE 3147776 4096]
    1048576 131072 (framebuffer_info_t.mk 0 0)

/-- The boot-info record of the boot scenario with a kernel image of size
`0x20800`, which does not end on a frame boundary. -/
def boot_unaligned_kernel : boot_info_t :=
  boot_info_t.mk [physical_memory_region_t.mk region_type.REGION_USABLE 1048576 15728640]
    1048576 133120 (framebuffer_info_t.mk 0 0)

/-- A state in which frames 0 and 1 are accessible and nothing is allocated. -/
def pmm_two_frames_example : pmm_state_t :=
  pmm_state_t.mk (address_space_frame_bitmap_t.mk (fun k => if k = 0 then 3 else 0))
    (address_space_frame_bitmap_t.mk (fun _ => 0))

/-- The calls of the PMM interface a client can make after `pmm_init`. -/
inductive pmm_call where
  | alloc
  | alloc_address (address : Nat)
  | free (frame_address : Nat)
  | reserve_mem_region (start size : Nat)

/-- The state one call leaves behind, or the panic it ends in. -/
def pmm_call_run (pmm : pmm_state_t) : pmm_call → Except panic_reason pmm_state_t
  | pmm_call.alloc =>
    match pmm_alloc pmm with
    | Except.error e => Except.error e
    | Except.ok (_, pmm1) => Except.ok pmm1
  | pmm_call.alloc_address address => pmm_alloc_address pmm address
  | pmm_call.free frame_address => pmm_free pmm frame_address
  | pmm_call.reserve_mem_region start size => pmm_reserve_mem_region pmm start size

/-- The state a sequence of calls leaves behind, or the first panic. -/
def pmm_calls_run : pmm_state_t → List pmm_call → Except panic_reason pmm_state_t
  | pmm, [] => Except.ok pmm
  | pmm, call :: rest =>
    match pmm_call_run pmm call with
    | Except.error e => Except.error e
    | Except.ok pmm1 => pmm_calls_run pmm1 rest

/-- The state after `pmm_init` on `info` followed by a sequence of calls. -/
def pmm_boot_run (info : boot_info_t) (calls : List pmm_call) :
    Except panic_reason pmm_state_t :=
  match pmm_init info with
  | Except.error e => Except.error e
  | Except.ok pmm0 => pmm_calls_run pmm0 calls

/-- The allocated bitmap is a subset of the accessible bitmap. -/
def allocated_subset_accessible (pmm : pmm_state_t) : Prop :=
  ∀ i, allocated pmm i = true → accessible pmm i = true

/-- The condition on one call under which the subset invariant is kept:
`pmm_alloc_address` is given an accessible frame, and `pmm_reserve_mem_region`
clears no allocated frame. -/
def call_keeps_subset (pmm : pmm_state_t) : pmm_call → Prop
  | pmm_call.alloc => True
  | pmm_call.alloc_address address => accessible pmm (address / PAGING_FRAME_SIZE) = true
  | pmm_call.free _ => True
  | pmm_call.reserve_mem_region start size =>
    ∀ f, reserve_clears start size f → allocated pmm f = false

/-- Every call of the sequence meets `call_keeps_subset` in the state it is
made in. -/
def calls_keep_subset : pmm_state_t → List pmm_call → Prop
  | _, [] => True
  | pmm, call :: rest =>
    call_keeps_subset pmm call ∧
      ∀ pmm1, pmm_call_run pmm call = Except.ok pmm1 → calls_keep_subset pmm1 rest

/-- A boot-info record without memory regions, kernel image or framebuffer. -/
def boot_empty : boot_info_t :=
  boot_info_t.mk [] 0 0 (framebuffer_info_t.mk 0 0)

/-- Frame `k` is accessible and not allocated. -/
def usable (pmm : pmm_state_t) (k : Nat) : Prop :=
  accessible pmm k = true ∧ allocated pmm k = false

instance (pmm : pmm_state_t) (k : Nat) : Decidable (usable pmm k) := by
  unfold usable
  infer_instance

/-- A state whose only accessible frame is frame 127, bit 31 of word 3, with
nothing allocated. -/
def pmm_bit31_example : pmm_state_t :=
  pmm_state_t.mk (address_space_frame_bitmap_t.mk (fun k => if k = 3 then 2147483648 else 0))
    (address_space_frame_bitmap_t.mk (fun _ => 0))

/-- A state with an empty accessible bitmap in which frames 0 to 31 are
allocated. -/
def pmm_inaccessible_example : pmm_state_t :=
  pmm_state_t.mk (address_space_frame_bitmap_t.mk (fun _ => 0))
    (address_space_frame_bitmap_t.mk (fun k => if k = 0 then 4294967295 else 0))

/-- The bitmap `set_memory_region` leaves in memory when it returns or panics
(pmm.c:47-60), with the panic it ended in, if any. -/
def set_memory_region_effect (bitmap : address_space_frame_bitmap_t)
    (region_start_addr region_len : Nat) :
    address_space_frame_bitmap_t × Option panic_reason :=
  if region_start_addr % PAGING_FRAME_SIZE ≠ 0 then
    (bitmap, some panic_reason.region_start_not_aligned)
  else if region_len % PAGING_FRAME_SIZE ≠ 0 then
    (bitmap, some panic_reason.region_len_not_aligned)
  else
    let frames_in_region := region_len / PAGING_FRAME_SIZE
    (set_region_loop region_start_addr bitmap 0 frames_in_region, none)

/-- The bitmap `unset_memory_region` leaves in memory when it returns or panics
(pmm.c:62-75), with the panic it ended in, if any. -/
def unset_memory_region_effect (bitmap : address_space_frame_bitmap_t)
    (region_start_addr region_len : Nat) :
    address_space_frame_bitmap_t × Option panic_reason :=
  if region_start_addr % PAGING_FRAME_SIZE ≠ 0 then
    (bitmap, some panic_reason.region_start_not_aligned)
  else if region_len % PAGING_FRAME_SIZE ≠ 0 then
    (bitmap, some panic_reason.region_len_not_aligned)
  else
    let frames_in_region := region_len / PAGING_FRAME_SIZE
    (unset_region_loop region_start_addr bitmap 0 frames_in_region, none)

/-! ## memory.c -/

/-- Byte-addressed memory: the byte stored at each address. -/
abbrev memory_t := Nat → Nat

/-- Every cell of the memory holds a byte. -/
def mem_wf (mem : memory_t) : Prop := ∀ x, mem x < 256

/-- A store through a `uint8_t*`. -/
def store8 (mem : memory_t) (addr v : Nat) : memory_t :=
  fun x => if x = addr then v % 256 else mem x

/-- A load through a `uint32_t*` (little-endian, as on i386). -/
def load32 (mem : memory_t) (addr : Nat) : Nat :=
  mem addr % 256 + 256 * (mem (addr + 1) % 256) + 65536 * (mem (addr + 2) % 256)
    + 16777216 * (mem (addr + 3) % 256)

/-- A store through a `uint32_t*` (little-endian, as on i386). -/
def store32 (mem : memory_t) (addr w : Nat) : memory_t :=
  fun x =>
    if x = addr then w % 256
    else if x = addr + 1 then w / 256 % 256
    else if x = addr + 2 then w / 65536 % 256
    else if x = addr + 3 then w / 16777216 % 256
    else mem x

/-- The conversion of an `int` to `uint32_t` or `size_t`. -/
def uint32_of_int (x : Int) : Nat := (x % 4294967296).toNat

/-- The conversion of a `size_t` to `int` (two's complement). -/
def int_of_uint32 (x : Nat) : Int :=
  if x % UINT32_MOD < 2147483648 then ((x % UINT32_MOD : Nat) : Int)
  else ((x % UINT32_MOD : Nat) : Int) - 4294967296

/-- The loop of `memcmp` (memory.c:6-13) from index `i`, with `n` iterations
left; falling out of the loop reaches `return 0`. -/
def memcmp_loop (mem : memory_t) (a b : Nat) : Nat → Nat → Int
  | _, 0 => 0
  | i, n + 1 =>
    if mem (a + i) < mem (b + i) then -1
    else if mem (b + i) > mem (a + i) then 1
    else memcmp_loop mem a b (i + 1) n

/-- The function `memcmp` (memory.c:3-15). -/
def memcmp (mem : memory_t) (aptr bptr size : Nat) : Int :=
  memcmp_loop mem aptr bptr 0 size

/-- The value `val32` of memory.c:26: `value | value << 8 | value << 16 |
value << 24` on the 32-bit pattern of the `int` value. -/
def memset_val32 (value : Int) : Nat :=
  let v := uint32_of_int value
  v ||| (v <<< 8) % UINT32_MOD ||| (v <<< 16) % UINT32_MOD ||| (v <<< 24) % UINT32_MOD

/-- The value `val8` of memory.c:27: `(uint8_t)value`. -/
def memset_val8 (value : Int) : Nat := (value % 256).toNat

/-- The loop of memory.c:30-32 from counter `i`, with `n` iterations left. -/
def memset_dwords (val32 dest32 : Nat) : memory_t → Nat → Nat → memory_t
  | mem, _, 0 => mem
  | mem, i, n + 1 => memset_dwords val32 dest32 (store32 mem (dest32 + 4 * i) val32) (i + 1) n

/-- The loop of memory.c:34-36 from counter `i`, with `n` iterations left. -/
def memset_bytes (val8 dest8 : Nat) : memory_t → Nat → Nat → memory_t
  | mem, _, 0 => mem
  | mem, i, n + 1 => memset_bytes val8 dest8 (store8 mem (dest8 + i) val8) (i + 1) n

/-- The function `memset` (memory.c:17-38): the pointer returned and the memory
left behind. -/
def memset (mem : memory_t) (bufptr : Nat) (value : Int) (size : Nat) :
    Nat × memory_t :=
  let num_dwords := size / 4
  let num_bytes := size % 4
  let dest32 := bufptr
  let dest8 := bufptr + num_dwords * 4
  let val32 := memset_val32 value
  let val8 := memset_val8 value
  (bufptr, memset_bytes val8 dest8 (memset_dwords val32 dest32 mem 0 num_dwords) 0 num_bytes)

/-- The loop of memory.c:53-55 from counter `i`, with `n` iterations left. -/
def memcpy_dwords (dest32 src32 : Nat) : memory_t → Nat → Nat → memory_t
  | mem, _, 0 => mem
  | mem, i, n + 1 =>
    memcpy_dwords dest32 src32 (store32 mem (dest32 + 4 * i) (load32 mem (src32 + 4 * i)))
      (i + 1) n

/-- The loop of memory.c:57-59 from counter `i`, with `n` iterations left. -/
def memcpy_bytes (dest8 src8 : Nat) : memory_t → Nat → Nat → memory_t
  | mem, _, 0 => mem
  | mem, i, n + 1 =>
    memcpy_bytes dest8 src8 (store8 mem (dest8 + i) (mem (src8 + i))) (i + 1) n

/-- The function `memcpy` (memory.c:40-61): the pointer returned and the memory
left behind. -/
def memcpy (mem : memory_t) (dstptr srcptr size : Nat) : Nat × memory_t :=
  let num_dwords := size / 4
  let num_bytes := size % 4
  let dest32 := dstptr
  let src32 := srcptr
  let dest8 := dstptr + num_dwords * 4
  let src8 := srcptr + num_dwords * 4
  (dstptr, memcpy_bytes dest8 src8 (memcpy_dwords dest32 src32 mem 0 num_dwords) 0 num_bytes)

/-- A plain byte-by-byte copy of `size` bytes from `srcptr` to `dstptr`, the
reference `memcpy` is compared with. -/
def memcpy_bytewise (mem : memory_t) (dstptr srcptr size : Nat) : memory_t :=
  memcpy_bytes dstptr srcptr mem 0 size

/-- Modelled from the spec: the kernel heap, whose `kmalloc` and `kfree` are
defined outside memory.c; each takes the memory and gives the memory it
leaves, `kmalloc` with the pointer it returns. -/
structure kernel_heap_t where
  kmalloc : memory_t → Nat → Nat × memory_t
  kfree : memory_t → Nat → memory_t

/-- The calls `calloc` and `realloc` make, in order. -/
inductive heap_call where
  | kmalloc (size : Nat)
  | memset (bufptr size : Nat)
  | memcpy (dstptr srcptr size : Nat)
  | kfree (ptr : Nat)
  deriving DecidableEq, Repr

/-- The function `calloc` (memory.c:63-67): the pointer returned, the memory
left behind and the calls made; `num * size` is a `size_t` product. -/
def calloc (heap : kernel_heap_t) (mem : memory_t) (num size : Nat) :
    Nat × memory_t × List heap_call :=
  let bytes := (num * size) % UINT32_MOD
  let allocation := heap.kmalloc mem bytes
  let cleared := memset allocation.2 allocation.1 0 bytes
  (allocation.1, cleared.2, [heap_call.kmalloc bytes, heap_call.memset allocation.1 bytes])

/-- The function `getsize` (memory.c:69-76); the `-1` it returns for a null
pointer is the largest `size_t`. -/
def getsize (mem : memory_t) (p : Nat) : Nat :=
  if p ≠ 0 then load32 mem (p - 4) else UINT32_MOD - 1

/-- The function `realloc` (memory.c:78-88): the pointer returned, the memory
left behind and the calls made.  `msize` is an `int`, converted back to
`size_t` in the comparison with `size` and in the call of `memcpy`. -/
def realloc (heap : kernel_heap_t) (mem : memory_t) (ptr size : Nat) :
    Nat × memory_t × List heap_call :=
  let msize : Int := int_of_uint32 (getsize mem ptr)
  if size ≤ uint32_of_int msize then (ptr, mem, [])
  else
    let allocation := heap.kmalloc mem size
    let newptr := allocation.1
    let copied := memcpy allocation.2 newptr ptr (uint32_of_int msize)
    let freed := heap.kfree copied.2 ptr
    (newptr, freed, [heap_call.kmalloc size,
      heap_call.memcpy newptr ptr (uint32_of_int msize), heap_call.kfree ptr])

/-- A heap whose `kmalloc` always returns the address 1000 and writes the
requested size in the word before it, and whose `kfree` does nothing. -/
def fixed_heap : kernel_heap_t :=
  kernel_heap_t.mk (fun mem size => (1000, store32 mem 996 size)) (fun mem _ => mem)

/-- A memory filled with the byte `0xaa`. -/
def mem_aa : memory_t := fun _ => 170

/-- A memory holding, at address 104, a heap block of two bytes `7, 9` whose
size header at address 100 holds 2; every other byte is zero. -/
def mem_block : memory_t :=
  fun x => if x = 100 then 2 else if x = 104 then 7 else if x = 105 then 9 else 0

/-! ## kernel.c: the text terminal -/

/-- Modelled from the spec: `VGA_WIDTH` of kernel.h; the text screen is 80
columns wide. -/
def VGA_WIDTH : Nat := 80

/-- Modelled from the spec: `VGA_HEIGHT` of kernel.h; the text screen is 25
rows high. -/
def VGA_HEIGHT : Nat := 25

/-- The globals of kernel.c:21-24; `terminal_buffer` is the array of 16-bit
entries the pointer of that name addresses, read by index. -/
structure terminal_t where
  terminal_row : Nat
  terminal_column : Nat
  terminal_color : Nat
  terminal_buffer : Nat → Nat

/-- The function `make_color` (kernel.c:11-13); the result is a `uint8_t`. -/
def make_color (fg bg : Nat) : Nat :=
  (fg ||| bg <<< 4) % 256

/-- The conversion of a `char`, given by its byte, to `uint16_t`
(kernel.c:16); `char` is signed on i386, so the bytes from `0x80` on are
sign-extended. -/
def char_to_uint16 (c : Nat) : Nat :=
  if c % 256 < 128 then c % 256 else c % 256 + 65280

/-- The function `make_vgaentry` (kernel.c:15-19) on the byte of the
character. -/
def make_vgaentry (c color : Nat) : Nat :=
  let c16 := char_to_uint16 c
  let color16 := color % 256
  (c16 ||| color16 <<< 8) % 65536

/-- The function `terminal_setcolor` (kernel.c:35-37). -/
def terminal_setcolor (t : terminal_t) (color : Nat) : terminal_t :=
  terminal_t.mk t.terminal_row t.terminal_column (color % 256) t.terminal_buffer

/-- The function `terminal_settextcolor` (kernel.c:39-41). -/
def terminal_settextcolor (t : terminal_t) (col : Nat) : terminal_t :=
  terminal_t.mk t.terminal_row t.terminal_column
    (make_color col (t.terminal_color >>> 4)) t.terminal_buffer

/-- The index `terminal_putentryat` writes (kernel.c:44), a `size_t`. -/
def terminal_index (x y : Nat) : Nat :=
  (y * VGA_WIDTH + x) % UINT32_MOD

/-- The function `terminal_putentryat` (kernel.c:43-46) on the buffer. -/
def terminal_putentryat (buffer : Nat → Nat) (c color x y : Nat) : Nat → Nat :=
  fun k => if k = terminal_index x y then make_vgaentry c color else buffer k

/-- The inner loop of `terminal_push_back_line` (kernel.c:53-57) from column
`col`, with `n` iterations left; the entry read is converted to `char` for the
call of `terminal_putentryat`. -/
def push_back_cols (row : Nat) : (Nat → Nat) → Nat → Nat → (Nat → Nat)
  | buffer, _, 0 => buffer
  | buffer, col, n + 1 =>
    let index := ((row + 1) * VGA_WIDTH + col) % UINT32_MOD
    let color := (buffer index >>> 8) % 256
    push_back_cols row (terminal_putentryat buffer (buffer index % 256) color col row)
      (col + 1) n

/-- The outer loop of `terminal_push_back_line` (kernel.c:52-58) from row
`row`, with `n` iterations left. -/
def push_back_rows : (Nat → Nat) → Nat → Nat → (Nat → Nat)
  | buffer, _, 0 => buffer
  | buffer, row, n + 1 =>
    push_back_rows (push_back_cols row buffer 0 VGA_WIDTH) (row + 1) n

/-- The function `terminal_push_back_line` (kernel.c:48-60). -/
def terminal_push_back_line (t : terminal_t) : terminal_t :=
  terminal_t.mk (VGA_HEIGHT - 1) 0 t.terminal_color
    (push_back_rows t.terminal_buffer 0 VGA_HEIGHT)

/-- The inner loop of `terminal_clear` (kernel.c:116-119) from column `x`,
with `n` iterations left; 32 is the space character. -/
def terminal_clear_cols (color y : Nat) : (Nat → Nat) → Nat → Nat → (Nat → Nat)
  | buffer, _, 0 => buffer
  | buffer, x, n + 1 =>
    terminal_clear_cols color y
      (fun k => if k = terminal_index x y then make_vgaentry 32 color else buffer k)
      (x + 1) n

/-- The outer loop of `terminal_clear` (kernel.c:115-120) from row `y`, with
`n` iterations left. -/
def terminal_clear_rows (color : Nat) : (Nat → Nat) → Nat → Nat → (Nat → Nat)
  | buffer, _, 0 => buffer
  | buffer, y, n + 1 =>
    terminal_clear_rows color (terminal_clear_cols color y buffer 0 VGA_WIDTH) (y + 1) n

/-- The function `terminal_clear` (kernel.c:112-121). -/
def terminal_clear (t : terminal_t) : terminal_t :=
  terminal_t.mk 0 0 t.terminal_color
    (terminal_clear_rows t.terminal_color t.terminal_buffer 0 VGA_HEIGHT)

/-- The function terminal_initialize (kernel.c:26-33); the enumerators
`COLOR_LIGHT_BLUE` and `COLOR_BLACK` of kernel.h are parameters, and `vga` is
the content of the memory at `0xB8000` when the function is called. -/
def terminal_initialize (COLOR_LIGHT_BLUE COLOR_BLACK : Nat) (vga : Nat → Nat) :
    terminal_t :=
  terminal_clear (terminal_t.mk 0 0 (make_color COLOR_LIGHT_BLUE COLOR_BLACK) vga)

/-- The second part of `terminal_putchar` (kernel.c:88-94): the column is
advanced and wraps to the next row when it equals `VGA_WIDTH`. -/
def terminal_advance (t : terminal_t) : terminal_t :=
  let column := (t.terminal_column + 1) % UINT32_MOD
  if column = VGA_WIDTH then
    let row := (t.terminal_row + 1) % UINT32_MOD
    if row = VGA_HEIGHT then
      terminal_push_back_line (terminal_t.mk row 0 t.terminal_color t.terminal_buffer)
    else terminal_t.mk row 0 t.terminal_color t.terminal_buffer
  else terminal_t.mk t.terminal_row column t.terminal_color t.terminal_buffer

/-- The function `terminal_putchar` (kernel.c:72-97) on the byte of the
character; 10 is the newline and 9 the tab.  The port writes of `move_cursor`
leave the globals alone and are left out. -/
def terminal_putchar (t : terminal_t) (c : Nat) : terminal_t :=
  if c = 10 then
    let row := (t.terminal_row + 1) % UINT32_MOD
    if row ≥ VGA_HEIGHT then
      terminal_advance
        (terminal_push_back_line (terminal_t.mk row 0 t.terminal_color t.terminal_buffer))
    else terminal_advance (terminal_t.mk row 0 t.terminal_color t.terminal_buffer)
  else if c = 9 then
    terminal_advance (terminal_t.mk t.terminal_row ((t.terminal_column + 4) % UINT32_MOD)
      t.terminal_color t.terminal_buffer)
  else
    terminal_advance (terminal_t.mk t.terminal_row t.terminal_column t.terminal_color
      (terminal_putentryat t.terminal_buffer c t.terminal_color t.terminal_column
        t.terminal_row))

/-- The state after a sequence of `terminal_putchar` calls, as in the loop of
`terminal_writestring` (kernel.c:107-109). -/
def terminal_putchars : terminal_t → List Nat → terminal_t
  | t, [] => t
  | t, c :: rest => terminal_putchars (terminal_putchar t c) rest

/-- The entry `terminal_push_back_line` writes for the entry `e` it reads
(kernel.c:55-56): `e` converted to `char`, with the colour `e >> 8`. -/
def vga_scrolled_entry (e : Nat) : Nat :=
  make_vgaentry (e % 256) ((e >>> 8) % 256)

/-- A terminal whose cell in column 0 of row 1 holds the character `0x80`
with the colour byte `0x07`; every other cell holds a grey space. -/
def terminal_high_char : terminal_t :=
  terminal_t.mk 24 5 7 (fun k => if k = 80 then 1920 else 1824)

/-- The entry `e` is a value of `make_vgaentry`, the only value the stores of
kernel.c:45 and kernel.c:118 write to the buffer. -/
def vga_entry_written (e : Nat) : Prop :=
  ∃ c color, e = make_vgaentry c color

/-- Every cell of the 80 x 25 screen holds a value of `make_vgaentry`. -/
def terminal_written (t : terminal_t) : Prop :=
  ∀ k, k < 2000 → vga_entry_written (t.terminal_buffer k)

/-- The terminal after terminal_initialize (light blue on black, over a zero
memory), a newline and the character `0x80`. -/
def terminal_after_high_char : terminal_t :=
  terminal_putchars ( terminal_initialize 9 0 (fun _ => 0)) [10, 128]

/-- Twenty-four newlines followed by sixteen tabs. -/
def newlines_then_tabs : List Nat :=
  List.replicate 24 10 ++ List.replicate 16 9

/-! ## Bit-level facts -/

theorem bit_mask_eq {j : Nat} (h : j < 32) : bit_mask j = 2 ^ j := by
  unfold bit_mask UINT32_MOD
  rw [Nat.one_shiftLeft]
  apply Nat.mod_eq_of_lt
  calc 2 ^ j < 2 ^ 32 := Nat.pow_lt_pow_right (by norm_num) h
    _ = 4294967296 := by norm_num

theorem and_two_pow_eq_zero_iff (w j : Nat) :
    w &&& 2 ^ j = 0 ↔ w.testBit j = false := by
  constructor
  · intro h
    have h2 := congrArg (fun x => x.testBit j) h
    simpa [Nat.testBit_two_pow_self] using h2
  · intro h
    apply Nat.eq_of_testBit_eq
    intro k
    by_cases hjk : j = k
    · subst hjk
      simp [h]
    · simp [Nat.testBit_two_pow_of_ne hjk]

theorem and_bit_mask_eq_zero_iff (w : Nat) {j : Nat} (h : j < 32) :
    w &&& bit_mask j = 0 ↔ w.testBit j = false := by
  rw [bit_mask_eq h]
  exact and_two_pow_eq_zero_iff w j

theorem bitmap_bit_eq (bitmap : address_space_frame_bitmap_t) (i : Nat) :
    bitmap_bit bitmap i = (bitmap.set (i / 32)).testBit (i % 32) := by
  have hlt : i % 32 < 32 := Nat.mod_lt _ (by norm_num)
  unfold bitmap_bit BITS_PER_BITMAP_ENTRY
  cases hb : (bitmap.set (i / 32)).testBit (i % 32)
  · have := (and_bit_mask_eq_zero_iff (bitmap.set (i / 32)) hlt).2 hb
    simp [this]
  · have : bitmap.set (i / 32) &&& bit_mask (i % 32) ≠ 0 := by
      intro h0
      have := (and_bit_mask_eq_zero_iff (bitmap.set (i / 32)) hlt).1 h0
      simp [hb] at this
    simp [this]

theorem testBit_bnot32_bit_mask {j k : Nat} (hj : j < 32) (hk : k < 32) :
    (bnot32 (bit_mask j)).testBit k = decide (j ≠ k) := by
  have h32 : UINT32_MOD - 1 = 2 ^ 32 - 1 := by unfold UINT32_MOD; norm_num
  have hmod : UINT32_MOD = 2 ^ 32 := by unfold UINT32_MOD; norm_num
  unfold bnot32
  rw [bit_mask_eq hj, h32, hmod, Nat.testBit_xor, Nat.testBit_mod_two_pow,
    Nat.testBit_two_pow_sub_one, Nat.testBit_two_pow]
  by_cases hjk : j = k <;> simp [hjk, hk]

theorem bitmap_bit_set_address (bitmap : address_space_frame_bitmap_t)
    (addr i : Nat) :
    bitmap_bit (addr_space_bitmap_set_address bitmap addr) i
      = (bitmap_bit bitmap i || decide (i = addr / 4096)) := by
  have hlt : addr / 4096 % 32 < 32 := Nat.mod_lt _ (by norm_num)
  rw [bitmap_bit_eq, bitmap_bit_eq]
  unfold addr_space_bitmap_set_address PAGING_FRAME_SIZE BITS_PER_BITMAP_ENTRY
  by_cases hw : i / 32 = addr / 4096 / 32
  · simp only [hw, if_true]
    rw [bit_mask_eq hlt, Nat.testBit_or, Nat.testBit_two_pow]
    by_cases hb : addr / 4096 % 32 = i % 32
    · have : i = addr / 4096 := by omega
      simp [hb, this]
    · have : i ≠ addr / 4096 := by
        intro h
        exact hb (by rw [h])
      simp [hb, this]
  · have : i ≠ addr / 4096 := by
      intro h
      exact hw (by rw [h])
    simp [hw, this]

theorem bitmap_bit_unset_address (bitmap : address_space_frame_bitmap_t)
    (addr i : Nat) :
    bitmap_bit (addr_space_bitmap_unset_address bitmap addr) i
      = (bitmap_bit bitmap i && decide (i ≠ addr / 4096)) := by
  have hlt : addr / 4096 % 32 < 32 := Nat.mod_lt _ (by norm_num)
  have hlt2 : i % 32 < 32 := Nat.mod_lt _ (by norm_num)
  rw [bitmap_bit_eq, bitmap_bit_eq]
  unfold addr_space_bitmap_unset_address PAGING_FRAME_SIZE BITS_PER_BITMAP_ENTRY
  by_cases hw : i / 32 = addr / 4096 / 32
  · simp only [hw, if_true]
    rw [Nat.testBit_and, testBit_bnot32_bit_mask hlt hlt2]
    by_cases hb : addr / 4096 % 32 = i % 32
    · have : i = addr / 4096 := by omega
      simp [hb, this]
    · have : i ≠ addr / 4096 := by
        intro h
        exact hb (by rw [h])
      simp [hb, this]
  · have : i ≠ addr / 4096 := by
      intro h
      exact hw (by rw [h])
    simp [hw, this]

/-! ## The scan of `first_usable_pmm_index` -/

theorem first_usable_bit_some (s p : Nat) :
    ∀ (n j r : Nat), j + n ≤ 32 → first_usable_bit s p j n = some r →
      j ≤ r ∧ r < j + n ∧ s.testBit r = true ∧ p.testBit r = false ∧
        ∀ k, j ≤ k → k < r → ¬ (s.testBit k = true ∧ p.testBit k = false) := by
  intro n
  induction n with
  | zero =>
    intro j r _ h
    simp [first_usable_bit] at h
  | succ n ih =>
    intro j r hj h
    have hj32 : j < 32 := by omega
    unfold first_usable_bit at h
    by_cases hs : s &&& bit_mask j = 0
    · rw [if_pos hs] at h
      have hsj := (and_bit_mask_eq_zero_iff s hj32).1 hs
      obtain ⟨h1, h2, h3, h4, h5⟩ := ih (j + 1) r (by omega) h
      refine ⟨by omega, by omega, h3, h4, ?_⟩
      intro k hk1 hk2
      by_cases hkj : k = j
      · subst hkj
        simp [hsj]
      · exact h5 k (by omega) hk2
    · rw [if_neg hs] at h
      by_cases hp : p &&& bit_mask j ≠ 0
      · rw [if_pos hp] at h
        have hpj : p.testBit j = true := by
          cases hb : p.testBit j
          · exact absurd ((and_bit_mask_eq_zero_iff p hj32).2 hb) hp
          · rfl
        obtain ⟨h1, h2, h3, h4, h5⟩ := ih (j + 1) r (by omega) h
        refine ⟨by omega, by omega, h3, h4, ?_⟩
        intro k hk1 hk2
        by_cases hkj : k = j
        · subst hkj
          simp [hpj]
        · exact h5 k (by omega) hk2
      · rw [if_neg hp] at h
        have hr : j = r := by simpa using h
        subst hr
        have hp0 : p &&& bit_mask j = 0 := by
          by_contra hne
          exact hp hne
        have hsj : s.testBit j = true := by
          cases hb : s.testBit j
          · exact absurd ((and_bit_mask_eq_zero_iff s hj32).2 hb) hs
          · rfl
        refine ⟨le_refl _, by omega, hsj, (and_bit_mask_eq_zero_iff p hj32).1 hp0, ?_⟩
        intro k hk1 hk2
        omega

theorem first_usable_bit_none (s p : Nat) :
    ∀ (n j : Nat), j + n ≤ 32 → first_usable_bit s p j n = none →
      ∀ k, j ≤ k → k < j + n → ¬ (s.testBit k = true ∧ p.testBit k = false) := by
  intro n
  induction n with
  | zero =>
    intro j _ _ k hk1 hk2
    omega
  | succ n ih =>
    intro j hj h k hk1 hk2
    have hj32 : j < 32 := by omega
    unfold first_usable_bit at h
    by_cases hs : s &&& bit_mask j = 0
    · rw [if_pos hs] at h
      have hsj := (and_bit_mask_eq_zero_iff s hj32).1 hs
      by_cases hkj : k = j
      · subst hkj
        simp [hsj]
      · exact ih (j + 1) (by omega) h k (by omega) (by omega)
    · rw [if_neg hs] at h
      by_cases hp : p &&& bit_mask j ≠ 0
      · rw [if_pos hp] at h
        have hpj : p.testBit j = true := by
          cases hb : p.testBit j
          · exact absurd ((and_bit_mask_eq_zero_iff p hj32).2 hb) hp
          · rfl
        by_cases hkj : k = j
        · subst hkj
          simp [hpj]
        · exact ih (j + 1) (by omega) h k (by omega) (by omega)
      · rw [if_neg hp] at h
        simp at h

theorem testBit_of_bnot32_eq_zero {p j : Nat} (h : bnot32 p = 0) (hj : j < 32) :
    p.testBit j = true := by
  have h32 : UINT32_MOD - 1 = 2 ^ 32 - 1 := by unfold UINT32_MOD; norm_num
  have hmod : UINT32_MOD = 2 ^ 32 := by unfold UINT32_MOD; norm_num
  have h2 := congrArg (fun x => x.testBit j) h
  unfold bnot32 at h2
  rw [h32, hmod] at h2
  simp only [Nat.testBit_xor, Nat.testBit_mod_two_pow, Nat.testBit_two_pow_sub_one,
    Nat.zero_testBit] at h2
  simpa [hj] using h2

theorem usable_iff_testBit (pmm : pmm_state_t) (k : Nat) :
    usable pmm k ↔
      ((pmm.system_accessible_frames.set (k / 32)).testBit (k % 32) = true ∧
        (pmm.allocation_state.set (k / 32)).testBit (k % 32) = false) := by
  unfold usable accessible allocated
  rw [bitmap_bit_eq, bitmap_bit_eq]

theorem first_usable_word_ok (pmm : pmm_state_t) :
    ∀ (n i idx : Nat), first_usable_word pmm i n = Except.ok idx →
      i * 32 ≤ idx ∧ idx < (i + n) * 32 ∧ usable pmm idx ∧
        ∀ k, i * 32 ≤ k → k < idx → ¬ usable pmm k := by
  intro n
  induction n with
  | zero =>
    intro i idx h
    simp [first_usable_word] at h
  | succ n ih =>
    intro i idx h
    have skip : (∀ k, i * 32 ≤ k → k < (i + 1) * 32 → ¬ usable pmm k) →
        first_usable_word pmm (i + 1) n = Except.ok idx →
        i * 32 ≤ idx ∧ idx < (i + (n + 1)) * 32 ∧ usable pmm idx ∧
          ∀ k, i * 32 ≤ k → k < idx → ¬ usable pmm k := by
      intro hnone hrec
      obtain ⟨h1, h2, h3, h4⟩ := ih (i + 1) idx hrec
      refine ⟨by omega, by omega, h3, ?_⟩
      intro k hk1 hk2
      by_cases hk : k < (i + 1) * 32
      · exact hnone k hk1 hk
      · exact h4 k (by omega) hk2
    unfold first_usable_word at h
    simp only at h
    by_cases hs : pmm.system_accessible_frames.set i = 0
    · rw [if_pos hs] at h
      apply skip _ h
      intro k hk1 hk2
      rw [usable_iff_testBit]
      have hki : k / 32 = i := by omega
      simp [hki, hs]
    · rw [if_neg hs] at h
      by_cases hp : bnot32 (pmm.allocation_state.set i) = 0
      · rw [if_pos hp] at h
        apply skip _ h
        intro k hk1 hk2
        rw [usable_iff_testBit]
        have hki : k / 32 = i := by omega
        have := testBit_of_bnot32_eq_zero hp (Nat.mod_lt k (by norm_num : 0 < 32))
        simp [hki, this]
      · rw [if_neg hp] at h
        cases hb : first_usable_bit (pmm.system_accessible_frames.set i)
            (pmm.allocation_state.set i) 0 BITS_PER_BITMAP_ENTRY with
        | none =>
          rw [hb] at h
          apply skip _ h
          intro k hk1 hk2
          rw [usable_iff_testBit]
          have hki : k / 32 = i := by omega
          rw [hki]
          exact first_usable_bit_none _ _ 32 0 (by omega) hb (k % 32) (by omega)
            (by omega)
        | some j =>
          rw [hb] at h
          have hidx : BITMAP_BIT_INDEX i j = idx := by
            simpa using h
          unfold BITMAP_BIT_INDEX BITS_PER_BITMAP_ENTRY at hidx
          obtain ⟨_, h2, h3, h4, h5⟩ :=
            first_usable_bit_some _ _ 32 0 j (by omega) hb
          have hdiv : idx / 32 = i := by omega
          have hmod : idx % 32 = j := by omega
          refine ⟨by omega, by omega, ?_, ?_⟩
          · rw [usable_iff_testBit, hdiv, hmod]
            exact ⟨h3, h4⟩
          · intro k hk1 hk2
            rw [usable_iff_testBit]
            have hki : k / 32 = i := by omega
            rw [hki]
            exact h5 (k % 32) (by omega) (by omega)

theorem first_usable_word_error (pmm : pmm_state_t) :
    ∀ (n i : Nat) (e : panic_reason), first_usable_word pmm i n = Except.error e →
      e = panic_reason.found_nothing ∧
        ∀ k, i * 32 ≤ k → k < (i + n) * 32 → ¬ usable pmm k := by
  intro n
  induction n with
  | zero =>
    intro i e h
    refine ⟨?_, ?_⟩
    · simp [first_usable_word] at h
      exact h.symm
    · intro k hk1 hk2
      omega
  | succ n ih =>
    intro i e h
    have skip : (∀ k, i * 32 ≤ k → k < (i + 1) * 32 → ¬ usable pmm k) →
        first_usable_word pmm (i + 1) n = Except.error e →
        e = panic_reason.found_nothing ∧
          ∀ k, i * 32 ≤ k → k < (i + (n + 1)) * 32 → ¬ usable pmm k := by
      intro hnone hrec
      obtain ⟨h1, h2⟩ := ih (i + 1) e hrec
      refine ⟨h1, ?_⟩
      intro k hk1 hk2
      by_cases hk : k < (i + 1) * 32
      · exact hnone k hk1 hk
      · exact h2 k (by omega) (by omega)
    unfold first_usable_word at h
    simp only at h
    by_cases hs : pmm.system_accessible_frames.set i = 0
    · rw [if_pos hs] at h
      apply skip _ h
      intro k hk1 hk2
      rw [usable_iff_testBit]
      have hki : k / 32 = i := by omega
      simp [hki, hs]
    · rw [if_neg hs] at h
      by_cases hp : bnot32 (pmm.allocation_state.set i) = 0
      · rw [if_pos hp] at h
        apply skip _ h
        intro k hk1 hk2
        rw [usable_iff_testBit]
        have hki : k / 32 = i := by omega
        have := testBit_of_bnot32_eq_zero hp (Nat.mod_lt k (by norm_num : 0 < 32))
        simp [hki, this]
      · rw [if_neg hp] at h
        cases hb : first_usable_bit (pmm.system_accessible_frames.set i)
            (pmm.allocation_state.set i) 0 BITS_PER_BITMAP_ENTRY with
        | none =>
          rw [hb] at h
          apply skip _ h
          intro k hk1 hk2
          rw [usable_iff_testBit]
          have hki : k / 32 = i := by omega
          rw [hki]
          exact first_usable_bit_none _ _ 32 0 (by omega) hb (k % 32) (by omega)
            (by omega)
        | some j =>
          rw [hb] at h
          simp at h

theorem first_usable_pmm_index_ok (pmm : pmm_state_t) (idx : Nat)
    (h : first_usable_pmm_index pmm = Except.ok idx) :
    idx < FRAME_COUNT ∧ usable pmm idx ∧ ∀ k, k < idx → ¬ usable pmm k := by
  obtain ⟨_, h2, h3, h4⟩ := first_usable_word_ok pmm ADDRESS_SPACE_BITMAP_SIZE 0 idx h
  refine ⟨?_, h3, fun k hk => h4 k (by omega) hk⟩
  unfold FRAME_COUNT BITS_PER_BITMAP_ENTRY
  omega

theorem first_usable_pmm_index_error (pmm : pmm_state_t) (e : panic_reason)
    (h : first_usable_pmm_index pmm = Except.error e) :
    e = panic_reason.found_nothing ∧ ∀ k, k < FRAME_COUNT → ¬ usable pmm k := by
  obtain ⟨h1, h2⟩ := first_usable_word_error pmm ADDRESS_SPACE_BITMAP_SIZE 0 e h
  refine ⟨h1, fun k hk => h2 k (by omega) ?_⟩
  unfold FRAME_COUNT BITS_PER_BITMAP_ENTRY at hk
  omega

theorem first_usable_pmm_index_lowest (pmm : pmm_state_t) (i : Nat)
    (hi : i < FRAME_COUNT) (hu : usable pmm i) (hmin : ∀ k, k < i → ¬ usable pmm k) :
    first_usable_pmm_index pmm = Except.ok i := by
  cases h : first_usable_pmm_index pmm with
  | error e =>
    exact absurd hu ((first_usable_pmm_index_error pmm e h).2 i hi)
  | ok idx =>
    obtain ⟨_, h2, h3⟩ := first_usable_pmm_index_ok pmm idx h
    have : idx = i := by
      rcases Nat.lt_trichotomy idx i with hlt | heq | hgt
      · exact absurd h2 (hmin idx hlt)
      · exact heq
      · exact absurd hu (h3 i hgt)
    rw [this]

theorem frame_address_of_index {i : Nat} (hi : i < FRAME_COUNT) :
    (i * PAGING_FRAME_SIZE) % UINT32_MOD = i * 4096 ∧
      (i * PAGING_FRAME_SIZE) % UINT32_MOD / 4096 = i := by
  unfold FRAME_COUNT ADDRESS_SPACE_BITMAP_SIZE BITS_PER_BITMAP_ENTRY at hi
  unfold PAGING_FRAME_SIZE UINT32_MOD
  omega

theorem pmm_alloc_of_lowest (pmm : pmm_state_t) (i : Nat)
    (hi : i < FRAME_COUNT) (hu : usable pmm i) (hmin : ∀ k, k < i → ¬ usable pmm k) :
    pmm_alloc pmm = Except.ok (i * 4096, pmm_state_t.mk pmm.system_accessible_frames
      (addr_space_bitmap_set_address pmm.allocation_state (i * 4096))) := by
  obtain ⟨ha, hd⟩ := frame_address_of_index hi
  have hchk : addr_space_bitmap_check_address pmm.allocation_state (i * 4096) = false := by
    unfold addr_space_bitmap_check_address PAGING_FRAME_SIZE
    rw [ha] at hd
    rw [hd]
    exact hu.2
  unfold pmm_alloc
  rw [first_usable_pmm_index_lowest pmm i hi hu hmin]
  simp only [ha]
  unfold pmm_alloc_address
  simp [hchk]

theorem pmm_alloc_ok_inv (pmm pmm1 : pmm_state_t) (f : Nat)
    (h : pmm_alloc pmm = Except.ok (f, pmm1)) :
    ∃ i, i < FRAME_COUNT ∧ usable pmm i ∧ (∀ k, k < i → ¬ usable pmm k) ∧
      f = i * 4096 ∧ pmm1 = pmm_state_t.mk pmm.system_accessible_frames
        (addr_space_bitmap_set_address pmm.allocation_state (i * 4096)) := by
  cases hf : first_usable_pmm_index pmm with
  | error e =>
    unfold pmm_alloc at h
    rw [hf] at h
    simp at h
  | ok idx =>
    obtain ⟨h1, h2, h3⟩ := first_usable_pmm_index_ok pmm idx hf
    have h4 := pmm_alloc_of_lowest pmm idx h1 h2 h3
    rw [h4] at h
    have h5 : (idx * 4096, pmm_state_t.mk pmm.system_accessible_frames
        (addr_space_bitmap_set_address pmm.allocation_state (idx * 4096))) = (f, pmm1) := by
      simpa using h
    refine ⟨idx, h1, h2, h3, ?_, ?_⟩
    · exact (congrArg Prod.fst h5).symm
    · exact (congrArg Prod.snd h5).symm

theorem pmm_alloc_error_iff (pmm : pmm_state_t) (e : panic_reason) :
    pmm_alloc pmm = Except.error e ↔
      (e = panic_reason.found_nothing ∧ ∀ i, i < FRAME_COUNT → ¬ usable pmm i) := by
  constructor
  · intro h
    cases hf : first_usable_pmm_index pmm with
    | error e2 =>
      unfold pmm_alloc at h
      rw [hf] at h
      have he : e2 = e := by simpa using h
      subst he
      exact first_usable_pmm_index_error pmm e2 hf
    | ok idx =>
      obtain ⟨h1, h2, h3⟩ := first_usable_pmm_index_ok pmm idx hf
      rw [pmm_alloc_of_lowest pmm idx h1 h2 h3] at h
      simp at h
  · rintro ⟨he, hnone⟩
    cases hf : first_usable_pmm_index pmm with
    | error e2 =>
      unfold pmm_alloc
      rw [hf, he, (first_usable_pmm_index_error pmm e2 hf).1]
    | ok idx =>
      obtain ⟨h1, h2, _⟩ := first_usable_pmm_index_ok pmm idx hf
      exact absurd h2 (hnone idx h1)

/-! ## Setting and clearing one bit -/

theorem testBit_bnot32_bit_mask_all {j : Nat} (hj : j < 32) (k : Nat) :
    (bnot32 (bit_mask j)).testBit k = (decide (k < 32) && decide (j ≠ k)) := by
  have h32 : UINT32_MOD - 1 = 2 ^ 32 - 1 := by unfold UINT32_MOD; norm_num
  have hmod : UINT32_MOD = 2 ^ 32 := by unfold UINT32_MOD; norm_num
  unfold bnot32
  rw [bit_mask_eq hj, h32, hmod, Nat.testBit_xor, Nat.testBit_mod_two_pow,
    Nat.testBit_two_pow_sub_one, Nat.testBit_two_pow]
  by_cases hjk : j = k <;> by_cases hk : k < 32 <;> simp [hjk, hk]

theorem testBit_of_uint32 {w k : Nat} (hw : w < UINT32_MOD) (hk : 32 ≤ k) :
    w.testBit k = false := by
  apply Nat.testBit_lt_two_pow
  calc w < 2 ^ 32 := by unfold UINT32_MOD at hw; omega
    _ ≤ 2 ^ k := Nat.pow_le_pow_right (by norm_num) hk

theorem unset_set_address (bitmap : address_space_frame_bitmap_t) (addr : Nat)
    (hwf : bitmap_wf bitmap) (hclear : bitmap_bit bitmap (addr / 4096) = false) :
    addr_space_bitmap_unset_address (addr_space_bitmap_set_address bitmap addr) addr
      = bitmap := by
  have hlt : addr / 4096 % 32 < 32 := Nat.mod_lt _ (by norm_num)
  rw [bitmap_bit_eq] at hclear
  cases bitmap with
  | mk words =>
    unfold addr_space_bitmap_unset_address addr_space_bitmap_set_address
      PAGING_FRAME_SIZE BITS_PER_BITMAP_ENTRY
    simp only
    congr 1
    funext k
    by_cases hk : k = addr / 4096 / 32
    · subst hk
      simp only [if_true]
      apply Nat.eq_of_testBit_eq
      intro m
      rw [Nat.testBit_and, Nat.testBit_or, testBit_bnot32_bit_mask_all hlt,
        bit_mask_eq hlt, Nat.testBit_two_pow]
      by_cases hm : m < 32
      · by_cases hjm : addr / 4096 % 32 = m
        · subst hjm
          simp only at hclear
          simp [hclear]
        · simp [hm, hjm]
      · have := testBit_of_uint32 (hwf (addr / 4096 / 32)) (by omega : 32 ≤ m)
        simp only at this
        simp [hm, this]
    · simp [hk]

/-! ## Claims about `pmm_alloc`, `pmm_alloc_address` and `pmm_free` -/

/-- C1: in every state with a frame that is accessible and not allocated,
`pmm_alloc` returns `i * 4096` for the lowest frame index `i` that is accessible
and not allocated, and frame `i` is allocated in the state it leaves. -/
theorem pmm_alloc_returns_lowest_usable_frame (pmm : pmm_state_t)
    (h : ∃ k, k < FRAME_COUNT ∧ accessible pmm k = true ∧ allocated pmm k = false) :
    ∃ i pmm1, pmm_alloc pmm = Except.ok (i * 4096, pmm1) ∧ i < FRAME_COUNT ∧
      accessible pmm i = true ∧ allocated pmm i = false ∧
      (∀ k, k < i → ¬ (accessible pmm k = true ∧ allocated pmm k = false)) ∧
      allocated pmm1 i = true := by
  obtain ⟨k, hk, hku⟩ := h
  cases hf : first_usable_pmm_index pmm with
  | error e =>
    exact absurd hku ((first_usable_pmm_index_error pmm e hf).2 k hk)
  | ok idx =>
    obtain ⟨h1, h2, h3⟩ := first_usable_pmm_index_ok pmm idx hf
    refine ⟨idx, _, pmm_alloc_of_lowest pmm idx h1 h2 h3, h1, h2.1, h2.2, h3, ?_⟩
    unfold allocated
    rw [bitmap_bit_set_address]
    have : idx * 4096 / 4096 = idx := by omega
    simp [this]

/-- C1, at the state whose only usable frame is bit 31 of a word. -/
theorem pmm_alloc_returns_lowest_usable_frame_witness :
    (∃ k, k < FRAME_COUNT ∧ accessible pmm_bit31_example k = true ∧
      allocated pmm_bit31_example k = false) ∧
    ∃ i pmm1, pmm_alloc pmm_bit31_example = Except.ok (i * 4096, pmm1) ∧
      i < FRAME_COUNT ∧
      accessible pmm_bit31_example i = true ∧ allocated pmm_bit31_example i = false ∧
      (∀ k, k < i → ¬ (accessible pmm_bit31_example k = true ∧
        allocated pmm_bit31_example k = false)) ∧
      allocated pmm1 i = true :=
  ⟨⟨127, by decide, by decide, by decide⟩,
    pmm_alloc_returns_lowest_usable_frame pmm_bit31_example
      ⟨127, by decide, by decide, by decide⟩⟩

/-- C7: when `pmm_alloc` succeeds and returns frame `f`, an immediate
`pmm_free` of `f` does not panic and gives back the state before the
`pmm_alloc`, both bitmaps included. -/
theorem pmm_alloc_then_free_restores (pmm pmm1 : pmm_state_t) (f : Nat)
    (hwf : pmm_wf pmm) (h : pmm_alloc pmm = Except.ok (f, pmm1)) :
    pmm_free pmm1 f = Except.ok pmm := by
  obtain ⟨i, _, hu, _, hf, h1⟩ := pmm_alloc_ok_inv pmm pmm1 f h
  subst hf
  subst h1
  have hdiv : i * 4096 / 4096 = i := by omega
  have hchk : addr_space_bitmap_check_address
      (addr_space_bitmap_set_address pmm.allocation_state (i * 4096)) (i * 4096) = true := by
    unfold addr_space_bitmap_check_address PAGING_FRAME_SIZE
    rw [bitmap_bit_set_address]
    simp
  unfold pmm_free
  simp only [hchk]
  have hclear : bitmap_bit pmm.allocation_state (i * 4096 / 4096) = false := by
    rw [hdiv]
    exact hu.2
  rw [unset_set_address pmm.allocation_state (i * 4096) hwf.2 hclear]
  rfl

theorem pmm_bit31_example_wf : pmm_wf pmm_bit31_example := by
  constructor
  · intro k
    show (if k = 3 then 2147483648 else 0) < 4294967296
    split <;> norm_num
  · intro k
    show 0 < 4294967296
    norm_num

/-- C7, at the state whose only usable frame is frame 127. -/
theorem pmm_alloc_then_free_restores_witness :
    pmm_wf pmm_bit31_example ∧
    pmm_alloc pmm_bit31_example = Except.ok (520192,
      pmm_state_t.mk pmm_bit31_example.system_accessible_frames
        (addr_space_bitmap_set_address pmm_bit31_example.allocation_state 520192)) ∧
    pmm_free (pmm_state_t.mk pmm_bit31_example.system_accessible_frames
        (addr_space_bitmap_set_address pmm_bit31_example.allocation_state 520192)) 520192
      = Except.ok pmm_bit31_example :=
  ⟨pmm_bit31_example_wf, rfl,
    pmm_alloc_then_free_restores pmm_bit31_example _ 520192 pmm_bit31_example_wf rfl⟩

/-- C8: `pmm_alloc` panics exactly when no frame is both accessible and not
allocated; in particular it panics whenever the accessible bitmap is empty. -/
theorem pmm_alloc_panics_iff_no_usable_frame (pmm : pmm_state_t) :
    ((∃ e, pmm_alloc pmm = Except.error e) ↔
      ¬ ∃ i, i < FRAME_COUNT ∧ accessible pmm i = true ∧ allocated pmm i = false) ∧
    ((∀ i, i < FRAME_COUNT → accessible pmm i = false) →
      pmm_alloc pmm = Except.error panic_reason.found_nothing) := by
  constructor
  · constructor
    · rintro ⟨e, he⟩ ⟨i, hi, hu⟩
      exact ((pmm_alloc_error_iff pmm e).1 he).2 i hi hu
    · intro hnone
      refine ⟨panic_reason.found_nothing, (pmm_alloc_error_iff pmm _).2 ⟨rfl, ?_⟩⟩
      intro i hi hu
      exact hnone ⟨i, hi, hu⟩
  · intro hempty
    refine (pmm_alloc_error_iff pmm _).2 ⟨rfl, ?_⟩
    intro i hi hu
    have := hempty i hi
    rw [hu.1] at this
    exact Bool.noConfusion this

theorem bitmap_bit_zero (i : Nat) :
    bitmap_bit (address_space_frame_bitmap_t.mk (fun _ => 0)) i = false := by
  rw [bitmap_bit_eq]
  simp

/-- C8, at a state with an empty accessible bitmap and allocated frames. -/
theorem pmm_alloc_panics_iff_no_usable_frame_witness :
    (∀ i, i < FRAME_COUNT → accessible pmm_inaccessible_example i = false) ∧
    allocated pmm_inaccessible_example 5 = true ∧
    pmm_alloc pmm_inaccessible_example = Except.error panic_reason.found_nothing :=
  ⟨fun i _ => bitmap_bit_zero i, by decide,
    (pmm_alloc_panics_iff_no_usable_frame pmm_inaccessible_example).2
      (fun i _ => bitmap_bit_zero i)⟩

/-- C9: `pmm_alloc_address` panics exactly when the frame of the address is
already allocated, whatever the accessible bitmap holds; otherwise it sets
that one bit of the allocated bitmap and changes nothing else. -/
theorem pmm_alloc_address_sets_one_bit (pmm : pmm_state_t) (addr : Nat) :
    ((∃ e, pmm_alloc_address pmm addr = Except.error e) ↔
      allocated pmm (addr / 4096) = true) ∧
    (allocated pmm (addr / 4096) = true →
      pmm_alloc_address pmm addr = Except.error panic_reason.double_alloc) ∧
    (allocated pmm (addr / 4096) = false →
      ∃ pmm1, pmm_alloc_address pmm addr = Except.ok pmm1 ∧
        pmm1.system_accessible_frames = pmm.system_accessible_frames ∧
        allocated pmm1 (addr / 4096) = true ∧
        ∀ i, i ≠ addr / 4096 → allocated pmm1 i = allocated pmm i) := by
  have hchk : addr_space_bitmap_check_address pmm.allocation_state addr
      = allocated pmm (addr / 4096) := rfl
  cases hb : allocated pmm (addr / 4096) with
  | true =>
    have herr : pmm_alloc_address pmm addr = Except.error panic_reason.double_alloc := by
      unfold pmm_alloc_address
      rw [hchk, hb]
      rfl
    refine ⟨⟨fun _ => rfl, fun _ => ⟨_, herr⟩⟩, fun _ => herr, fun hf => ?_⟩
    exact Bool.noConfusion hf
  | false =>
    have hok : pmm_alloc_address pmm addr = Except.ok
        (pmm_state_t.mk pmm.system_accessible_frames
          (addr_space_bitmap_set_address pmm.allocation_state addr)) := by
      unfold pmm_alloc_address
      rw [hchk, hb]
      rfl
    refine ⟨⟨?_, fun hf => Bool.noConfusion hf⟩, fun hf => Bool.noConfusion hf, fun _ => ?_⟩
    · rintro ⟨e, he⟩
      rw [hok] at he
      simp at he
    · refine ⟨_, hok, rfl, ?_, ?_⟩
      · unfold allocated
        rw [bitmap_bit_set_address]
        simp
      · intro i hi
        unfold allocated
        rw [bitmap_bit_set_address]
        simp [hi]

/-- C9, at concrete states: a double allocation of frame 5 panics although the
frame is not accessible, and frame 40, not accessible either, is allocated. -/
theorem pmm_alloc_address_sets_one_bit_witness :
    (allocated pmm_inaccessible_example (20480 / 4096) = true ∧
      pmm_alloc_address pmm_inaccessible_example 20480
        = Except.error panic_reason.double_alloc) ∧
    (allocated pmm_inaccessible_example (163840 / 4096) = false ∧
      ∃ pmm1, pmm_alloc_address pmm_inaccessible_example 163840 = Except.ok pmm1 ∧
        pmm1.system_accessible_frames
          = pmm_inaccessible_example.system_accessible_frames ∧
        allocated pmm1 (163840 / 4096) = true ∧
        ∀ i, i ≠ 163840 / 4096 →
          allocated pmm1 i = allocated pmm_inaccessible_example i) :=
  ⟨⟨by decide,
      (pmm_alloc_address_sets_one_bit pmm_inaccessible_example 20480).2.1 (by decide)⟩,
    ⟨by decide,
      (pmm_alloc_address_sets_one_bit pmm_inaccessible_example 163840).2.2 (by decide)⟩⟩

/-- C10: `pmm_free` panics exactly when the frame of the address is not
allocated; otherwise it clears that one bit of the allocated bitmap and
changes nothing else. -/
theorem pmm_free_clears_one_bit (pmm : pmm_state_t) (addr : Nat) :
    ((∃ e, pmm_free pmm addr = Except.error e) ↔
      allocated pmm (addr / 4096) = false) ∧
    (allocated pmm (addr / 4096) = false →
      pmm_free pmm addr = Except.error panic_reason.free_non_allocated) ∧
    (allocated pmm (addr / 4096) = true →
      ∃ pmm1, pmm_free pmm addr = Except.ok pmm1 ∧
        pmm1.system_accessible_frames = pmm.system_accessible_frames ∧
        allocated pmm1 (addr / 4096) = false ∧
        ∀ i, i ≠ addr / 4096 → allocated pmm1 i = allocated pmm i) := by
  have hchk : addr_space_bitmap_check_address pmm.allocation_state addr
      = allocated pmm (addr / 4096) := rfl
  cases hb : allocated pmm (addr / 4096) with
  | false =>
    have herr : pmm_free pmm addr = Except.error panic_reason.free_non_allocated := by
      unfold pmm_free
      rw [hchk, hb]
      rfl
    refine ⟨⟨fun _ => rfl, fun _ => ⟨_, herr⟩⟩, fun _ => herr, fun hf => ?_⟩
    exact Bool.noConfusion hf
  | true =>
    have hok : pmm_free pmm addr = Except.ok
        (pmm_state_t.mk pmm.system_accessible_frames
          (addr_space_bitmap_unset_address pmm.allocation_state addr)) := by
      unfold pmm_free
      rw [hchk, hb]
      rfl
    refine ⟨⟨?_, fun hf => Bool.noConfusion hf⟩, fun hf => Bool.noConfusion hf, fun _ => ?_⟩
    · rintro ⟨e, he⟩
      rw [hok] at he
      simp at he
    · refine ⟨_, hok, rfl, ?_, ?_⟩
      · unfold allocated
        rw [bitmap_bit_unset_address]
        simp
      · intro i hi
        unfold allocated
        rw [bitmap_bit_unset_address]
        simp [hi]

/-- C10, at concrete states: freeing frame 40, which is not allocated, panics,
and freeing the allocated frame 5 clears its bit. -/
theorem pmm_free_clears_one_bit_witness :
    (allocated pmm_inaccessible_example (163840 / 4096) = false ∧
      pmm_free pmm_inaccessible_example 163840
        = Except.error panic_reason.free_non_allocated) ∧
    (allocated pmm_inaccessible_example (20480 / 4096) = true ∧
      ∃ pmm1, pmm_free pmm_inaccessible_example 20480 = Except.ok pmm1 ∧
        pmm1.system_accessible_frames
          = pmm_inaccessible_example.system_accessible_frames ∧
        allocated pmm1 (20480 / 4096) = false ∧
        ∀ i, i ≠ 20480 / 4096 →
          allocated pmm1 i = allocated pmm_inaccessible_example i) :=
  ⟨⟨by decide,
      (pmm_free_clears_one_bit pmm_inaccessible_example 163840).2.1 (by decide)⟩,
    ⟨by decide,
      (pmm_free_clears_one_bit pmm_inaccessible_example 20480).2.2 (by decide)⟩⟩

/-! ## Marking and clearing regions -/

theorem bitmap_bit_set_region_loop (start : Nat) :
    ∀ (n : Nat) (bitmap : address_space_frame_bitmap_t) (i f : Nat),
      bitmap_bit (set_region_loop start bitmap i n) f = true ↔
        (bitmap_bit bitmap f = true ∨
          ∃ k, i ≤ k ∧ k < i + n ∧
            (start + k * PAGING_FRAME_SIZE) % UINT32_MOD / PAGING_FRAME_SIZE = f) := by
  intro n
  induction n with
  | zero =>
    intro bitmap i f
    simp only [set_region_loop]
    constructor
    · exact fun h => Or.inl h
    · rintro (h | ⟨k, h1, h2, _⟩)
      · exact h
      · omega
  | succ n ih =>
    intro bitmap i f
    simp only [set_region_loop]
    rw [ih, bitmap_bit_set_address]
    constructor
    · rintro (h | ⟨k, h1, h2, h3⟩)
      · simp only [Bool.or_eq_true, decide_eq_true_eq] at h
        rcases h with h | h
        · exact Or.inl h
        · exact Or.inr ⟨i, le_refl _, by omega, h.symm⟩
      · exact Or.inr ⟨k, by omega, by omega, h3⟩
    · rintro (h | ⟨k, h1, h2, h3⟩)
      · left
        simp [h]
      · by_cases hk : k = i
        · subst hk
          left
          simp only [Bool.or_eq_true, decide_eq_true_eq]
          exact Or.inr h3.symm
        · exact Or.inr ⟨k, by omega, by omega, h3⟩

theorem bitmap_bit_unset_region_loop (start : Nat) :
    ∀ (n : Nat) (bitmap : address_space_frame_bitmap_t) (i f : Nat),
      bitmap_bit (unset_region_loop start bitmap i n) f = true ↔
        (bitmap_bit bitmap f = true ∧
          ∀ k, i ≤ k → k < i + n →
            (start + k * PAGING_FRAME_SIZE) % UINT32_MOD / PAGING_FRAME_SIZE ≠ f) := by
  intro n
  induction n with
  | zero =>
    intro bitmap i f
    simp only [unset_region_loop]
    constructor
    · intro h
      exact ⟨h, fun k h1 h2 => by omega⟩
    · exact fun h => h.1
  | succ n ih =>
    intro bitmap i f
    simp only [unset_region_loop]
    rw [ih, bitmap_bit_unset_address]
    simp only [Bool.and_eq_true, decide_eq_true_eq]
    constructor
    · rintro ⟨⟨h1, h2⟩, h3⟩
      refine ⟨h1, ?_⟩
      intro k hk1 hk2
      by_cases hk : k = i
      · subst hk
        exact fun h => h2 h.symm
      · exact h3 k (by omega) (by omega)
    · rintro ⟨h1, h2⟩
      refine ⟨⟨h1, ?_⟩, ?_⟩
      · exact fun h => h2 i (le_refl _) (by omega) h.symm
      · intro k hk1 hk2
        exact h2 k (by omega) (by omega)

theorem addr_space_frame_floor_aligned (addr : Nat) :
    addr_space_frame_floor addr % PAGING_FRAME_SIZE = 0 := by
  unfold addr_space_frame_floor PAGING_FRAME_SIZE
  omega

theorem addr_space_frame_ceil_aligned (addr : Nat) :
    addr_space_frame_ceil addr % PAGING_FRAME_SIZE = 0 := by
  unfold addr_space_frame_ceil PAGING_FRAME_SIZE UINT32_MOD
  split <;> omega

theorem set_memory_region_aligned (bitmap : address_space_frame_bitmap_t)
    (start len : Nat) (h1 : start % PAGING_FRAME_SIZE = 0)
    (h2 : len % PAGING_FRAME_SIZE = 0) :
    set_memory_region bitmap start len
      = Except.ok (set_region_loop start bitmap 0 (len / PAGING_FRAME_SIZE)) := by
  unfold set_memory_region
  simp [h1, h2]

theorem unset_memory_region_aligned (bitmap : address_space_frame_bitmap_t)
    (start len : Nat) (h1 : start % PAGING_FRAME_SIZE = 0)
    (h2 : len % PAGING_FRAME_SIZE = 0) :
    unset_memory_region bitmap start len
      = Except.ok (unset_region_loop start bitmap 0 (len / PAGING_FRAME_SIZE)) := by
  unfold unset_memory_region
  simp [h1, h2]

theorem pmm_reserve_mem_region_eq (pmm : pmm_state_t) (start size : Nat) :
    pmm_reserve_mem_region pmm start size
      = Except.ok (pmm_state_t.mk
          (unset_region_loop (addr_space_frame_floor start) pmm.system_accessible_frames 0
            (addr_space_frame_ceil size / PAGING_FRAME_SIZE))
          pmm.allocation_state) := by
  unfold pmm_reserve_mem_region
  simp only
  rw [unset_memory_region_aligned _ _ _ (addr_space_frame_floor_aligned start)
    (addr_space_frame_ceil_aligned size)]

theorem pmm_reserve_mem_region_ok (pmm : pmm_state_t) (start size : Nat) :
    ∃ pmm1, pmm_reserve_mem_region pmm start size = Except.ok pmm1 ∧
      pmm1.allocation_state = pmm.allocation_state ∧
      ∀ f, accessible pmm1 f = true ↔
        (accessible pmm f = true ∧ ¬ reserve_clears start size f) := by
  refine ⟨_, pmm_reserve_mem_region_eq pmm start size, rfl, ?_⟩
  intro f
  unfold accessible reserve_clears
  simp only
  rw [bitmap_bit_unset_region_loop]
  constructor
  · rintro ⟨h1, h2⟩
    refine ⟨h1, ?_⟩
    rintro ⟨k, hk1, hk2⟩
    exact h2 k (Nat.zero_le _) (by omega) hk2
  · rintro ⟨h1, h2⟩
    refine ⟨h1, ?_⟩
    intro k _ hk2 hk3
    exact h2 ⟨k, by omega, hk3⟩

theorem pmm_init_mark_ok :
    ∀ (regions : List physical_memory_region_t) (bitmap : address_space_frame_bitmap_t),
      ∃ marked, pmm_init_mark bitmap regions = Except.ok marked ∧
        ∀ f, bitmap_bit marked f = true ↔
          (bitmap_bit bitmap f = true ∨ ∃ r, r ∈ regions ∧ region_marks r f) := by
  intro regions
  induction regions with
  | nil =>
    intro bitmap
    refine ⟨bitmap, rfl, ?_⟩
    intro f
    simp
  | cons r rest ih =>
    intro bitmap
    by_cases ht : r.type = region_type.REGION_USABLE
    · obtain ⟨marked, hm1, hm2⟩ := ih (set_region_loop (addr_space_frame_ceil r.addr) bitmap 0
        (addr_space_frame_floor r.len / PAGING_FRAME_SIZE))
      refine ⟨marked, ?_, ?_⟩
      · unfold pmm_init_mark
        simp only [ht, ne_eq, not_true_eq_false, if_false]
        rw [set_memory_region_aligned _ _ _ (addr_space_frame_ceil_aligned r.addr)
          (addr_space_frame_floor_aligned r.len)]
        exact hm1
      · intro f
        rw [hm2, bitmap_bit_set_region_loop]
        constructor
        · rintro ((h | ⟨k, _, hk2, hk3⟩) | ⟨r2, hr2, hr3⟩)
          · exact Or.inl h
          · exact Or.inr ⟨r, List.mem_cons_self _ _, ht, k, by omega, hk3⟩
          · exact Or.inr ⟨r2, List.mem_cons_of_mem _ hr2, hr3⟩
        · rintro (h | ⟨r2, hr2, hr3⟩)
          · exact Or.inl (Or.inl h)
          · rcases List.mem_cons.1 hr2 with heq | hmem
            · subst heq
              obtain ⟨_, k, hk1, hk2⟩ := hr3
              exact Or.inl (Or.inr ⟨k, Nat.zero_le _, by omega, hk2⟩)
            · exact Or.inr ⟨r2, hmem, hr3⟩
    · obtain ⟨marked, hm1, hm2⟩ := ih bitmap
      refine ⟨marked, ?_, ?_⟩
      · unfold pmm_init_mark
        simp only [ne_eq, ht, not_false_eq_true, if_true]
        exact hm1
      · intro f
        rw [hm2]
        constructor
        · rintro (h | ⟨r2, hr2, hr3⟩)
          · exact Or.inl h
          · exact Or.inr ⟨r2, List.mem_cons_of_mem _ hr2, hr3⟩
        · rintro (h | ⟨r2, hr2, hr3⟩)
          · exact Or.inl h
          · rcases List.mem_cons.1 hr2 with heq | hmem
            · subst heq
              exact absurd hr3.1 ht
            · exact Or.inr ⟨r2, hmem, hr3⟩

theorem pmm_init_ok (info : boot_info_t) :
    ∃ pmm0, pmm_init info = Except.ok pmm0 ∧
      pmm0.allocation_state = pmm_zero.allocation_state ∧
      ∀ f, accessible pmm0 f = true ↔
        ((∃ r, r ∈ info.mem_regions ∧ region_marks r f) ∧
          ¬ reserve_clears 0 info.kernel_image_start f ∧
          ¬ reserve_clears info.kernel_image_start info.kernel_image_size f ∧
          ¬ reserve_clears ((info.kernel_image_start + info.kernel_image_size) % UINT32_MOD)
              1048576 f ∧
          ¬ reserve_clears info.framebuffer.address info.framebuffer.size f) := by
  obtain ⟨marked, hm1, hm2⟩ :=
    pmm_init_mark_ok info.mem_regions pmm_zero.system_accessible_frames
  obtain ⟨p1, hp1, ha1, hb1⟩ := pmm_reserve_mem_region_ok
    (pmm_state_t.mk marked pmm_zero.allocation_state) 0 info.kernel_image_start
  obtain ⟨p2, hp2, ha2, hb2⟩ := pmm_reserve_mem_region_ok p1
    info.kernel_image_start info.kernel_image_size
  obtain ⟨p3, hp3, ha3, hb3⟩ := pmm_reserve_mem_region_ok p2
    ((info.kernel_image_start + info.kernel_image_size) % UINT32_MOD) 1048576
  obtain ⟨p4, hp4, ha4, hb4⟩ := pmm_reserve_mem_region_ok p3
    info.framebuffer.address info.framebuffer.size
  refine ⟨p4, ?_, ?_, ?_⟩
  · unfold pmm_init
    simp only [hm1, hp1, hp2, hp3]
    exact hp4
  · rw [ha4, ha3, ha2, ha1]
  · intro f
    rw [hb4, hb3, hb2, hb1]
    have hzero : bitmap_bit pmm_zero.system_accessible_frames f = false :=
      bitmap_bit_zero f
    have hmark : accessible (pmm_state_t.mk marked pmm_zero.allocation_state) f = true ↔
        ∃ r, r ∈ info.mem_regions ∧ region_marks r f := by
      unfold accessible
      simp only
      rw [hm2, hzero]
      simp
    rw [hmark]
    tauto

theorem allocated_of_zero (pmm : pmm_state_t)
    (h : pmm.allocation_state = pmm_zero.allocation_state) (f : Nat) :
    allocated pmm f = false := by
  unfold allocated
  rw [h]
  exact bitmap_bit_zero f

/-! ## The boot scenario -/

theorem boot_scenario_accessible (fb_address : Nat) :
    ∃ pmm0, pmm_init (boot_scenario fb_address) = Except.ok pmm0 ∧
      pmm0.allocation_state = pmm_zero.allocation_state ∧
      ∀ f, accessible pmm0 f = true ↔ (544 ≤ f ∧ f < 4096) := by
  obtain ⟨pmm0, h1, h2, h3⟩ := pmm_init_ok (boot_scenario fb_address)
  refine ⟨pmm0, h1, h2, ?_⟩
  intro f
  rw [h3]
  have hc1 : addr_space_frame_ceil 1048576 = 1048576 := by decide
  have hc2 : addr_space_frame_ceil 131072 = 131072 := by decide
  have hc3 : addr_space_frame_ceil 0 = 0 := by decide
  have hf1 : addr_space_frame_floor 15728640 = 15728640 := by decide
  have hf2 : addr_space_frame_floor 0 = 0 := by decide
  have hf3 : addr_space_frame_floor 1048576 = 1048576 := by decide
  have hf4 : addr_space_frame_floor 1179648 = 1179648 := by decide
  have hmark : (∃ r, r ∈ (boot_scenario fb_address).mem_regions ∧ region_marks r f) ↔
      (256 ≤ f ∧ f < 4096) := by
    unfold boot_scenario region_marks
    simp only [List.mem_singleton, exists_eq_left, true_and, hc1, hf1]
    unfold PAGING_FRAME_SIZE UINT32_MOD
    constructor
    · rintro ⟨k, hk1, hk2⟩
      omega
    · intro hf
      exact ⟨f - 256, by omega, by omega⟩
  have hr1 : reserve_clears 0 (boot_scenario fb_address).kernel_image_start f ↔ f < 256 := by
    unfold boot_scenario reserve_clears
    simp only [hc1, hf2]
    unfold PAGING_FRAME_SIZE UINT32_MOD
    constructor
    · rintro ⟨k, hk1, hk2⟩
      omega
    · intro hf
      exact ⟨f, by omega, by omega⟩
  have hr2 : reserve_clears (boot_scenario fb_address).kernel_image_start
      (boot_scenario fb_address).kernel_image_size f ↔ (256 ≤ f ∧ f < 288) := by
    unfold boot_scenario reserve_clears
    simp only [hc2, hf3]
    unfold PAGING_FRAME_SIZE UINT32_MOD
    constructor
    · rintro ⟨k, hk1, hk2⟩
      omega
    · intro hf
      exact ⟨f - 256, by omega, by omega⟩
  have hr3 : reserve_clears (((boot_scenario fb_address).kernel_image_start
      + (boot_scenario fb_address).kernel_image_size) % UINT32_MOD) 1048576 f ↔
      (288 ≤ f ∧ f < 544) := by
    have hmax : (1048576 + 131072) % UINT32_MOD = 1179648 := by decide
    unfold boot_scenario reserve_clears
    simp only [hmax, hc1, hf4]
    unfold PAGING_FRAME_SIZE UINT32_MOD
    constructor
    · rintro ⟨k, hk1, hk2⟩
      omega
    · intro hf
      exact ⟨f - 288, by omega, by omega⟩
  have hr4 : ¬ reserve_clears (boot_scenario fb_address).framebuffer.address
      (boot_scenario fb_address).framebuffer.size f := by
    unfold boot_scenario reserve_clears
    simp only [hc3]
    unfold PAGING_FRAME_SIZE
    rintro ⟨k, hk1, _⟩
    omega
  rw [hmark, hr1, hr2, hr3]
  constructor
  · rintro ⟨h4, h5, h6, h7, _⟩
    omega
  · intro h4
    refine ⟨by omega, by omega, by omega, by omega, hr4⟩

theorem boot_scenario_first_alloc (fb_address : Nat) :
    ∃ pmm0 pmm1, pmm_init (boot_scenario fb_address) = Except.ok pmm0 ∧
      pmm_alloc pmm0 = Except.ok (2228224, pmm1) := by
  obtain ⟨pmm0, h1, h2, h3⟩ := boot_scenario_accessible fb_address
  have hlow := pmm_alloc_of_lowest pmm0 544 (by decide)
    ⟨(h3 544).2 (by omega), allocated_of_zero pmm0 h2 544⟩
    (fun k hk hu => by
      have := (h3 k).1 hu.1
      omega)
  exact ⟨pmm0, _, h1, hlow⟩

/-- C5, as stated, fails: in the boot scenario frame `0x120000` (index 288)
is not accessible after `pmm_init`, and the first `pmm_alloc` does not return
`0x120000`. -/
theorem boot_first_alloc_is_not_0x120000 :
    ∃ pmm0, pmm_init (boot_scenario 0) = Except.ok pmm0 ∧
      accessible pmm0 288 = false ∧
      ∀ pmm1, pmm_alloc pmm0 ≠ Except.ok (1179648, pmm1) := by
  obtain ⟨pmm0, h1, h2, h3⟩ := boot_scenario_accessible 0
  obtain ⟨pmm0b, pmm1b, h4, h5⟩ := boot_scenario_first_alloc 0
  have hsame : pmm0b = pmm0 := by
    rw [h1] at h4
    exact (Except.ok.inj h4).symm
  subst hsame
  refine ⟨pmm0b, h1, ?_, ?_⟩
  · cases hb : accessible pmm0b 288 with
    | false => rfl
    | true =>
      have := (h3 288).1 hb
      omega
  · intro pmm1 h
    rw [h5] at h
    have := congrArg Prod.fst (Except.ok.inj h)
    simp at this

/-- C5, amended: in the boot scenario, whatever the address of the empty
framebuffer extent, `pmm_init` succeeds and the first `pmm_alloc` returns
`0x220000`, the first frame above the kernel image and the 1 MiB buffer. -/
theorem boot_first_alloc_is_0x220000 (fb_address : Nat) :
    ∃ pmm0 pmm1, pmm_init (boot_scenario fb_address) = Except.ok pmm0 ∧
      pmm_alloc pmm0 = Except.ok (2228224, pmm1) ∧ allocated pmm1 544 = true := by
  obtain ⟨pmm0, pmm1, h1, h2⟩ := boot_scenario_first_alloc fb_address
  refine ⟨pmm0, pmm1, h1, h2, ?_⟩
  obtain ⟨i, _, _, _, hf, hp⟩ := pmm_alloc_ok_inv pmm0 pmm1 2228224 h2
  have hi : i = 544 := by omega
  subst hi
  subst hp
  unfold allocated
  rw [bitmap_bit_set_address]
  simp

/-- C6: in the boot scenario, after `pmm_init` every frame with base address in
`[0x100000, 0x220000)` and every frame below `0x100000` has its accessible bit
clear, and every frame with base address in `[0x220000, 0x1000000)` is
accessible and not allocated. -/
theorem boot_scenario_frames (fb_address : Nat) :
    ∃ pmm0, pmm_init (boot_scenario fb_address) = Except.ok pmm0 ∧
      (∀ f, 1048576 ≤ f * 4096 → f * 4096 < 2228224 → accessible pmm0 f = false) ∧
      (∀ f, f * 4096 < 1048576 → accessible pmm0 f = false) ∧
      (∀ f, 2228224 ≤ f * 4096 → f * 4096 < 16777216 →
        accessible pmm0 f = true ∧ allocated pmm0 f = false) := by
  obtain ⟨pmm0, h1, h2, h3⟩ := boot_scenario_accessible fb_address
  have hclear : ∀ f, f < 544 → accessible pmm0 f = false := by
    intro f hf
    cases hb : accessible pmm0 f with
    | false => rfl
    | true =>
      have := (h3 f).1 hb
      omega
  refine ⟨pmm0, h1, ?_, ?_, ?_⟩
  · intro f _ hf
    exact hclear f (by omega)
  · intro f hf
    exact hclear f (by omega)
  · intro f hf1 hf2
    exact ⟨(h3 f).2 ⟨by omega, by omega⟩, allocated_of_zero pmm0 h2 f⟩

/-- C6, at the frames `0x100000`, `0x21f000`, `0x0` and `0x220000`. -/
theorem boot_scenario_frames_witness :
    ∃ pmm0, pmm_init (boot_scenario 0) = Except.ok pmm0 ∧
      accessible pmm0 256 = false ∧ accessible pmm0 543 = false ∧
      accessible pmm0 0 = false ∧
      (accessible pmm0 544 = true ∧ allocated pmm0 544 = false) :=
  match boot_scenario_frames 0 with
  | ⟨pmm0, h1, h2, h3, h4⟩ =>
    ⟨pmm0, h1, h2 256 (by decide) (by decide), h2 543 (by decide) (by decide),
      h3 0 (by decide), h4 544 (by decide) (by decide)⟩

/-! ## Regions that do not start on a frame boundary -/

theorem boot_unaligned_region_accessible :
    ∃ pmm0, pmm_init boot_unaligned_region = Except.ok pmm0 ∧
      pmm0.allocation_state = pmm_zero.allocation_state ∧
      ∀ f, accessible pmm0 f = true ↔ f = 769 := by
  obtain ⟨pmm0, h1, h2, h3⟩ := pmm_init_ok boot_unaligned_region
  refine ⟨pmm0, h1, h2, ?_⟩
  intro f
  rw [h3]
  have hc1 : addr_space_frame_ceil 1048576 = 1048576 := by decide
  have hc2 : addr_space_frame_ceil 131072 = 131072 := by decide
  have hc3 : addr_space_frame_ceil 0 = 0 := by decide
  have hc4 : addr_space_frame_ceil 3147776 = 3149824 := by decide
  have hf1 : addr_space_frame_floor 4096 = 4096 := by decide
  have hf2 : addr_space_frame_floor 0 = 0 := by decide
  have hf3 : addr_space_frame_floor 1048576 = 1048576 := by decide
  have hf4 : addr_space_frame_floor 1179648 = 1179648 := by decide
  have hmark : (∃ r, r ∈ boot_unaligned_region.mem_regions ∧ region_marks r f) ↔
      f = 769 := by
    unfold boot_unaligned_region region_marks
    simp only [List.mem_singleton, exists_eq_left, true_and, hc4, hf1]
    unfold PAGING_FRAME_SIZE UINT32_MOD
    constructor
    · rintro ⟨k, hk1, hk2⟩
      omega
    · intro hf
      exact ⟨0, by omega, by omega⟩
  have hr1 : reserve_clears 0 boot_unaligned_region.kernel_image_start f ↔ f < 256 := by
    unfold boot_unaligned_region reserve_clears
    simp only [hc1, hf2]
    unfold PAGING_FRAME_SIZE UINT32_MOD
    constructor
    · rintro ⟨k, hk1, hk2⟩
      omega
    · intro hf
      exact ⟨f, by omega, by omega⟩
  have hr2 : reserve_clears boot_unaligned_region.kernel_image_start
      boot_unaligned_region.kernel_image_size f ↔ (256 ≤ f ∧ f < 288) := by
    unfold boot_unaligned_region reserve_clears
    simp only [hc2, hf3]
    unfold PAGING_FRAME_SIZE UINT32_MOD
    constructor
    · rintro ⟨k, hk1, hk2⟩
      omega
    · intro hf
      exact ⟨f - 256, by omega, by omega⟩
  have hr3 : reserve_clears ((boot_unaligned_region.kernel_image_start
      + boot_unaligned_region.kernel_image_size) % UINT32_MOD) 1048576 f ↔
      (288 ≤ f ∧ f < 544) := by
    have hmax : (1048576 + 131072) % UINT32_MOD = 1179648 := by decide
    unfold boot_unaligned_region reserve_clears
    simp only [hmax, hc1, hf4]
    unfold PAGING_FRAME_SIZE UINT32_MOD
    constructor
    · rintro ⟨k, hk1, hk2⟩
      omega
    · intro hf
      exact ⟨f - 288, by omega, by omega⟩
  have hr4 : ¬ reserve_clears boot_unaligned_region.framebuffer.address
      boot_unaligned_region.framebuffer.size f := by
    unfold boot_unaligned_region reserve_clears
    simp only [hc3]
    unfold PAGING_FRAME_SIZE
    rintro ⟨k, hk1, _⟩
    omega
  rw [hmark, hr1, hr2, hr3]
  constructor
  · rintro ⟨h4, _⟩
    exact h4
  · intro h4
    refine ⟨h4, by omega, by omega, by omega, hr4⟩

/-- C3, failing input: for the usable region `[0x300800, 0x301800)` the marking
pass of `pmm_init` sets the accessible bit of frame `0x301`, which spans
`[0x301000, 0x302000)` and so extends past the end of the region; `pmm_init`
keeps the bit and the first `pmm_alloc` hands the frame out. -/
theorem pmm_init_marks_frame_outside_region :
    ∃ marked pmm0 pmm1,
      pmm_init_mark pmm_zero.system_accessible_frames boot_unaligned_region.mem_regions
        = Except.ok marked ∧
      bitmap_bit marked 769 = true ∧
      3147776 + 4096 < (769 + 1) * 4096 ∧
      pmm_init boot_unaligned_region = Except.ok pmm0 ∧
      pmm_alloc pmm0 = Except.ok (3149824, pmm1) := by
  obtain ⟨marked, hm1, hm2⟩ := pmm_init_mark_ok boot_unaligned_region.mem_regions
    pmm_zero.system_accessible_frames
  obtain ⟨pmm0, h1, h2, h3⟩ := boot_unaligned_region_accessible
  have hlow := pmm_alloc_of_lowest pmm0 769 (by decide)
    ⟨(h3 769).2 rfl, allocated_of_zero pmm0 h2 769⟩
    (fun k hk hu => by
      have := (h3 k).1 hu.1
      omega)
  refine ⟨marked, pmm0, _, hm1, ?_, by decide, h1, hlow⟩
  rw [hm2]
  right
  refine ⟨_, List.mem_singleton.2 rfl, rfl, 0, by decide, by decide⟩

theorem boot_unaligned_kernel_accessible :
    ∃ pmm0, pmm_init boot_unaligned_kernel = Except.ok pmm0 ∧
      pmm0.allocation_state = pmm_zero.allocation_state ∧
      ∀ f, accessible pmm0 f = true ↔ (544 ≤ f ∧ f < 4096) := by
  obtain ⟨pmm0, h1, h2, h3⟩ := pmm_init_ok boot_unaligned_kernel
  refine ⟨pmm0, h1, h2, ?_⟩
  intro f
  rw [h3]
  have hc1 : addr_space_frame_ceil 1048576 = 1048576 := by decide
  have hc2 : addr_space_frame_ceil 133120 = 135168 := by decide
  have hc3 : addr_space_frame_ceil 0 = 0 := by decide
  have hf1 : addr_space_frame_floor 15728640 = 15728640 := by decide
  have hf2 : addr_space_frame_floor 0 = 0 := by decide
  have hf3 : addr_space_frame_floor 1048576 = 1048576 := by decide
  have hf4 : addr_space_frame_floor 1181696 = 1179648 := by decide
  have hmark : (∃ r, r ∈ boot_unaligned_kernel.mem_regions ∧ region_marks r f) ↔
      (256 ≤ f ∧ f < 4096) := by
    unfold boot_unaligned_kernel region_marks
    simp only [List.mem_singleton, exists_eq_left, true_and, hc1, hf1]
    unfold PAGING_FRAME_SIZE UINT32_MOD
    constructor
    · rintro ⟨k, hk1, hk2⟩
      omega
    · intro hf
      exact ⟨f - 256, by omega, by omega⟩
  have hr1 : reserve_clears 0 boot_unaligned_kernel.kernel_image_start f ↔ f < 256 := by
    unfold boot_unaligned_kernel reserve_clears
    simp only [hc1, hf2]
    unfold PAGING_FRAME_SIZE UINT32_MOD
    constructor
    · rintro ⟨k, hk1, hk2⟩
      omega
    · intro hf
      exact ⟨f, by omega, by omega⟩
  have hr2 : reserve_clears boot_unaligned_kernel.kernel_image_start
      boot_unaligned_kernel.kernel_image_size f ↔ (256 ≤ f ∧ f < 289) := by
    unfold boot_unaligned_kernel reserve_clears
    simp only [hc2, hf3]
    unfold PAGING_FRAME_SIZE UINT32_MOD
    constructor
    · rintro ⟨k, hk1, hk2⟩
      omega
    · intro hf
      exact ⟨f - 256, by omega, by omega⟩
  have hr3 : reserve_clears ((boot_unaligned_kernel.kernel_image_start
      + boot_unaligned_kernel.kernel_image_size) % UINT32_MOD) 1048576 f ↔
      (288 ≤ f ∧ f < 544) := by
    have hmax : (1048576 + 133120) % UINT32_MOD = 1181696 := by decide
    unfold boot_unaligned_kernel reserve_clears
    simp only [hmax, hc1, hf4]
    unfold PAGING_FRAME_SIZE UINT32_MOD
    constructor
    · rintro ⟨k, hk1, hk2⟩
      omega
    · intro hf
      exact ⟨f - 288, by omega, by omega⟩
  have hr4 : ¬ reserve_clears boot_unaligned_kernel.framebuffer.address
      boot_unaligned_kernel.framebuffer.size f := by
    unfold boot_unaligned_kernel reserve_clears
    simp only [hc3]
    unfold PAGING_FRAME_SIZE
    rintro ⟨k, hk1, _⟩
    omega
  rw [hmark, hr1, hr2, hr3]
  constructor
  · rintro ⟨h4, h5, h6, h7, _⟩
    omega
  · intro h4
    refine ⟨by omega, by omega, by omega, by omega, hr4⟩

/-- C4, failing inputs: `pmm_reserve_mem_region(pmm, 0x800, 0x1000)` on a state
with frames 0 and 1 accessible clears frame 0 only, so frame 1, whose bytes
`[0x1000, 0x1800)` lie in the block, stays accessible and the next `pmm_alloc`
returns `0x1000`; and with a kernel image of size `0x20800` at `0x100000` the
1 MiB buffer reserved by `pmm_init` spans `[0x120800, 0x220800)`, yet the first
`pmm_alloc` returns `0x220000`, a frame that starts inside the buffer. -/
theorem pmm_reserve_mem_region_leaves_tail_frame :
    (∃ pmm1 pmm2, pmm_reserve_mem_region pmm_two_frames_example 2048 4096 = Except.ok pmm1 ∧
      accessible pmm1 1 = true ∧ 2048 < (1 + 1) * 4096 ∧ 1 * 4096 < 2048 + 4096 ∧
      pmm_alloc pmm1 = Except.ok (4096, pmm2)) ∧
    (∃ pmm0 pmm1, pmm_init boot_unaligned_kernel = Except.ok pmm0 ∧
      pmm_alloc pmm0 = Except.ok (2228224, pmm1) ∧
      1048576 + 133120 ≤ 2228224 ∧ 2228224 < 1048576 + 133120 + 1048576) := by
  constructor
  · obtain ⟨pmm1, h1, h2, h3⟩ := pmm_reserve_mem_region_ok pmm_two_frames_example 2048 4096
    have hclr : ∀ f, reserve_clears 2048 4096 f ↔ f = 0 := by
      intro f
      have hc : addr_space_frame_ceil 4096 = 4096 := by decide
      have hf : addr_space_frame_floor 2048 = 0 := by decide
      unfold reserve_clears
      simp only [hc, hf]
      unfold PAGING_FRAME_SIZE UINT32_MOD
      constructor
      · rintro ⟨k, hk1, hk2⟩
        omega
      · intro h0
        exact ⟨0, by omega, by omega⟩
    have hacc1 : accessible pmm1 1 = true := by
      rw [h3, hclr]
      exact ⟨by decide, by decide⟩
    have hacc0 : ¬ accessible pmm1 0 = true := by
      rw [h3, hclr]
      exact fun h => h.2 rfl
    have hlow := pmm_alloc_of_lowest pmm1 1 (by decide)
      ⟨hacc1, allocated_of_zero pmm1 h2 1⟩
      (fun k hk hu => by
        have hk0 : k = 0 := by omega
        subst hk0
        exact hacc0 hu.1)
    exact ⟨pmm1, _, h1, hacc1, by decide, by decide, hlow⟩
  · obtain ⟨pmm0, h1, h2, h3⟩ := boot_unaligned_kernel_accessible
    have hlow := pmm_alloc_of_lowest pmm0 544 (by decide)
      ⟨(h3 544).2 (by omega), allocated_of_zero pmm0 h2 544⟩
      (fun k hk hu => by
        have := (h3 k).1 hu.1
        omega)
    exact ⟨pmm0, _, h1, hlow, by decide, by decide⟩

/-! ## The subset invariant -/

theorem pmm_call_run_keeps_subset (pmm pmm1 : pmm_state_t) (call : pmm_call)
    (hinv : allocated_subset_accessible pmm) (hg : call_keeps_subset pmm call)
    (hrun : pmm_call_run pmm call = Except.ok pmm1) :
    allocated_subset_accessible pmm1 := by
  cases call with
  | alloc =>
    change (match pmm_alloc pmm with
      | Except.error e => Except.error e
      | Except.ok (_, pmm2) => Except.ok pmm2) = Except.ok pmm1 at hrun
    cases ha : pmm_alloc pmm with
    | error e =>
      rw [ha] at hrun
      simp at hrun
    | ok res =>
      obtain ⟨f, pmm2⟩ := res
      rw [ha] at hrun
      have hp : pmm2 = pmm1 := by simpa using hrun
      subst hp
      obtain ⟨i, _, hu, _, _, hp2⟩ := pmm_alloc_ok_inv pmm pmm2 f ha
      subst hp2
      intro j hj
      unfold allocated at hj
      rw [bitmap_bit_set_address] at hj
      have hdiv : i * 4096 / 4096 = i := by omega
      rw [hdiv] at hj
      simp only [Bool.or_eq_true, decide_eq_true_eq] at hj
      rcases hj with hj | hj
      · exact hinv j hj
      · rw [hj]
        exact hu.1
  | alloc_address address =>
    change pmm_alloc_address pmm address = Except.ok pmm1 at hrun
    unfold pmm_alloc_address at hrun
    by_cases hc : addr_space_bitmap_check_address pmm.allocation_state address = true
    · rw [if_pos hc] at hrun
      simp at hrun
    · rw [if_neg hc] at hrun
      have hp := Except.ok.inj hrun
      subst hp
      intro j hj
      unfold allocated at hj
      rw [bitmap_bit_set_address] at hj
      simp only [Bool.or_eq_true, decide_eq_true_eq] at hj
      rcases hj with hj | hj
      · exact hinv j hj
      · rw [hj]
        exact hg
  | free frame_address =>
    change pmm_free pmm frame_address = Except.ok pmm1 at hrun
    unfold pmm_free at hrun
    by_cases hc : (!addr_space_bitmap_check_address pmm.allocation_state frame_address) = true
    · rw [if_pos hc] at hrun
      simp at hrun
    · rw [if_neg hc] at hrun
      have hp := Except.ok.inj hrun
      subst hp
      intro j hj
      unfold allocated at hj
      rw [bitmap_bit_unset_address] at hj
      simp only [Bool.and_eq_true, decide_eq_true_eq] at hj
      exact hinv j hj.1
  | reserve_mem_region start size =>
    change pmm_reserve_mem_region pmm start size = Except.ok pmm1 at hrun
    obtain ⟨pmm2, h1, h2, h3⟩ := pmm_reserve_mem_region_ok pmm start size
    rw [h1] at hrun
    have hp := Except.ok.inj hrun
    subst hp
    intro j hj
    have hj2 : allocated pmm j = true := by
      unfold allocated at hj ⊢
      rw [h2] at hj
      exact hj
    rw [h3]
    refine ⟨hinv j hj2, ?_⟩
    intro hclr
    have := hg j hclr
    rw [hj2] at this
    exact Bool.noConfusion this

theorem pmm_init_subset (info : boot_info_t) (pmm0 : pmm_state_t)
    (h : pmm_init info = Except.ok pmm0) : allocated_subset_accessible pmm0 := by
  obtain ⟨pmm, h1, h2, _⟩ := pmm_init_ok info
  rw [h] at h1
  have hp := Except.ok.inj h1
  subst hp
  intro i hi
  rw [allocated_of_zero pmm0 h2 i] at hi
  exact Bool.noConfusion hi

theorem pmm_calls_run_cons_ok (pmm pmm1 : pmm_state_t) (call : pmm_call)
    (rest : List pmm_call) (h : pmm_call_run pmm call = Except.ok pmm1) :
    pmm_calls_run pmm (call :: rest) = pmm_calls_run pmm1 rest := by
  show (match pmm_call_run pmm call with
    | Except.error e => Except.error e
    | Except.ok pmm2 => pmm_calls_run pmm2 rest) = pmm_calls_run pmm1 rest
  rw [h]

theorem pmm_call_run_alloc (pmm pmm1 : pmm_state_t) (f : Nat)
    (h : pmm_alloc pmm = Except.ok (f, pmm1)) :
    pmm_call_run pmm pmm_call.alloc = Except.ok pmm1 := by
  show (match pmm_alloc pmm with
    | Except.error e => Except.error e
    | Except.ok (_, pmm2) => Except.ok pmm2) = Except.ok pmm1
  rw [h]

theorem pmm_boot_run_ok (info : boot_info_t) (pmm0 : pmm_state_t)
    (calls : List pmm_call) (h : pmm_init info = Except.ok pmm0) :
    pmm_boot_run info calls = pmm_calls_run pmm0 calls := by
  unfold pmm_boot_run
  rw [h]

/-- C2, as stated, fails: after `pmm_init` on a boot-info record without
usable memory, `pmm_alloc_address(0)` does not panic and leaves frame 0
allocated but not accessible; and in the boot scenario `pmm_alloc` followed by
`pmm_reserve_mem_region` on the frame just returned leaves frame `0x220`
allocated but not accessible. -/
theorem allocated_subset_accessible_fails :
    (∃ pmm, pmm_boot_run boot_empty [pmm_call.alloc_address 0] = Except.ok pmm ∧
      allocated pmm 0 = true ∧ accessible pmm 0 = false) ∧
    (∃ pmm, pmm_boot_run (boot_scenario 0)
        [pmm_call.alloc, pmm_call.reserve_mem_region 2228224 4096] = Except.ok pmm ∧
      allocated pmm 544 = true ∧ accessible pmm 544 = false) := by
  constructor
  · obtain ⟨pmm0, h1, h2, h3⟩ := pmm_init_ok boot_empty
    have hacc : accessible pmm0 0 = false := by
      cases hb : accessible pmm0 0 with
      | false => rfl
      | true =>
        obtain ⟨⟨r, hr, _⟩, _⟩ := (h3 0).1 hb
        exact absurd hr (List.not_mem_nil r)
    have hchk : addr_space_bitmap_check_address pmm0.allocation_state 0 = false :=
      allocated_of_zero pmm0 h2 0
    have hrun : pmm_call_run pmm0 (pmm_call.alloc_address 0)
        = Except.ok (pmm_state_t.mk pmm0.system_accessible_frames
            (addr_space_bitmap_set_address pmm0.allocation_state 0)) := by
      show pmm_alloc_address pmm0 0 = _
      unfold pmm_alloc_address
      simp [hchk]
    refine ⟨pmm_state_t.mk pmm0.system_accessible_frames
      (addr_space_bitmap_set_address pmm0.allocation_state 0), ?_, ?_, hacc⟩
    · rw [pmm_boot_run_ok _ pmm0 _ h1, pmm_calls_run_cons_ok _ _ _ _ hrun]
      rfl
    · unfold allocated
      rw [bitmap_bit_set_address]
      simp
  · obtain ⟨pmm0, pmm1, h1, h2⟩ := boot_scenario_first_alloc 0
    obtain ⟨i, _, _, _, hf, hp⟩ := pmm_alloc_ok_inv pmm0 pmm1 2228224 h2
    have hi : i = 544 := by omega
    subst hi
    obtain ⟨pmm2, h3, h4, h5⟩ := pmm_reserve_mem_region_ok pmm1 2228224 4096
    refine ⟨pmm2, ?_, ?_, ?_⟩
    · rw [pmm_boot_run_ok _ pmm0 _ h1,
        pmm_calls_run_cons_ok _ _ _ _ (pmm_call_run_alloc pmm0 pmm1 _ h2),
        pmm_calls_run_cons_ok pmm1 pmm2 (pmm_call.reserve_mem_region 2228224 4096) [] h3]
      rfl
    · unfold allocated
      rw [h4, hp]
      simp only
      rw [bitmap_bit_set_address]
      simp
    · cases hb : accessible pmm2 544 with
      | false => rfl
      | true =>
        have hnot := ((h5 544).1 hb).2
        exfalso
        apply hnot
        refine ⟨0, by decide, by decide⟩

/-- C2, amended: in every state reached from `pmm_init` by calls of
`pmm_alloc`, `pmm_free`, `pmm_alloc_address` on accessible frames and
`pmm_reserve_mem_region` on regions without allocated frames, none of which
panics, every allocated frame is accessible. -/
theorem allocated_subset_accessible_of_guarded_calls (info : boot_info_t)
    (calls : List pmm_call) (pmm0 pmm : pmm_state_t)
    (hinit : pmm_init info = Except.ok pmm0)
    (hcalls : calls_keep_subset pmm0 calls)
    (hrun : pmm_calls_run pmm0 calls = Except.ok pmm) :
    ∀ i, allocated pmm i = true → accessible pmm i = true := by
  have hinv : allocated_subset_accessible pmm0 := pmm_init_subset info pmm0 hinit
  clear hinit
  induction calls generalizing pmm0 with
  | nil =>
    have hp : pmm0 = pmm := Except.ok.inj hrun
    rw [← hp]
    exact hinv
  | cons call rest ih =>
    cases hc : pmm_call_run pmm0 call with
    | error e =>
      rw [show pmm_calls_run pmm0 (call :: rest) = (match pmm_call_run pmm0 call with
        | Except.error e => Except.error e
        | Except.ok pmm2 => pmm_calls_run pmm2 rest) from rfl, hc] at hrun
      simp at hrun
    | ok pmm2 =>
      rw [pmm_calls_run_cons_ok pmm0 pmm2 call rest hc] at hrun
      exact ih pmm2 (hcalls.2 pmm2 hc) hrun
        (pmm_call_run_keeps_subset pmm0 pmm2 call hinv hcalls.1 hc)

/-- C2 amended, in the boot scenario followed by one `pmm_alloc`. -/
theorem allocated_subset_accessible_of_guarded_calls_witness :
    ∃ pmm0 pmm, pmm_init (boot_scenario 0) = Except.ok pmm0 ∧
      calls_keep_subset pmm0 [pmm_call.alloc] ∧
      pmm_calls_run pmm0 [pmm_call.alloc] = Except.ok pmm ∧
      allocated pmm 544 = true ∧
      ∀ i, allocated pmm i = true → accessible pmm i = true := by
  obtain ⟨pmm0, pmm1, h1, h2⟩ := boot_scenario_first_alloc 0
  have hg : calls_keep_subset pmm0 [pmm_call.alloc] := ⟨trivial, fun _ _ => trivial⟩
  have hrun : pmm_calls_run pmm0 [pmm_call.alloc] = Except.ok pmm1 := by
    rw [pmm_calls_run_cons_ok _ _ _ _ (pmm_call_run_alloc pmm0 pmm1 _ h2)]
    rfl
  have h3 : allocated pmm1 544 = true := by
    obtain ⟨i, _, _, _, hf, hp⟩ := pmm_alloc_ok_inv pmm0 pmm1 2228224 h2
    have hi : i = 544 := by omega
    subst hi
    subst hp
    unfold allocated
    rw [bitmap_bit_set_address]
    simp
  exact ⟨pmm0, pmm1, h1, hg, hrun, h3,
    allocated_subset_accessible_of_guarded_calls (boot_scenario 0) [pmm_call.alloc]
      pmm0 pmm1 h1 hg hrun⟩

/-! ## Alignment checks of `set_memory_region` and `unset_memory_region` -/

/-- C11: `set_memory_region` and `unset_memory_region` panic whenever the start
address or the length is not a multiple of 4096, and the bitmap is then as it
was; when both are multiples of 4096 neither panics. -/
theorem memory_region_panics_iff_unaligned (bitmap : address_space_frame_bitmap_t)
    (region_start_addr region_len : Nat) :
    ((region_start_addr % 4096 ≠ 0 ∨ region_len % 4096 ≠ 0) →
      (∃ e, set_memory_region bitmap region_start_addr region_len = Except.error e ∧
        set_memory_region_effect bitmap region_start_addr region_len = (bitmap, some e)) ∧
      (∃ e, unset_memory_region bitmap region_start_addr region_len = Except.error e ∧
        unset_memory_region_effect bitmap region_start_addr region_len = (bitmap, some e))) ∧
    (region_start_addr % 4096 = 0 → region_len % 4096 = 0 →
      (∃ marked, set_memory_region bitmap region_start_addr region_len = Except.ok marked ∧
        set_memory_region_effect bitmap region_start_addr region_len = (marked, none)) ∧
      (∃ cleared, unset_memory_region bitmap region_start_addr region_len
          = Except.ok cleared ∧
        unset_memory_region_effect bitmap region_start_addr region_len = (cleared, none))) := by
  constructor
  · intro h
    by_cases hs : region_start_addr % 4096 = 0
    · have hl : region_len % 4096 ≠ 0 := by
        rcases h with h | h
        · exact absurd hs h
        · exact h
      constructor
      · refine ⟨panic_reason.region_len_not_aligned, ?_, ?_⟩
        · simp [set_memory_region, PAGING_FRAME_SIZE, hs, hl]
        · simp [set_memory_region_effect, PAGING_FRAME_SIZE, hs, hl]
      · refine ⟨panic_reason.region_len_not_aligned, ?_, ?_⟩
        · simp [unset_memory_region, PAGING_FRAME_SIZE, hs, hl]
        · simp [unset_memory_region_effect, PAGING_FRAME_SIZE, hs, hl]
    · constructor
      · refine ⟨panic_reason.region_start_not_aligned, ?_, ?_⟩
        · simp [set_memory_region, PAGING_FRAME_SIZE, hs]
        · simp [set_memory_region_effect, PAGING_FRAME_SIZE, hs]
      · refine ⟨panic_reason.region_start_not_aligned, ?_, ?_⟩
        · simp [unset_memory_region, PAGING_FRAME_SIZE, hs]
        · simp [unset_memory_region_effect, PAGING_FRAME_SIZE, hs]
  · intro hs hl
    constructor
    · refine ⟨_, set_memory_region_aligned bitmap _ _ hs hl, ?_⟩
      simp [set_memory_region_effect, PAGING_FRAME_SIZE, hs, hl]
    · refine ⟨_, unset_memory_region_aligned bitmap _ _ hs hl, ?_⟩
      simp [unset_memory_region_effect, PAGING_FRAME_SIZE, hs, hl]

/-- C11, at an unaligned start address, an unaligned length and an aligned
pair. -/
theorem memory_region_panics_iff_unaligned_witness :
    (∃ e, set_memory_region pmm_zero.system_accessible_frames 2048 4096 = Except.error e ∧
      set_memory_region_effect pmm_zero.system_accessible_frames 2048 4096
        = (pmm_zero.system_accessible_frames, some e)) ∧
    (∃ e, unset_memory_region pmm_zero.system_accessible_frames 4096 100 = Except.error e ∧
      unset_memory_region_effect pmm_zero.system_accessible_frames 4096 100
        = (pmm_zero.system_accessible_frames, some e)) ∧
    (∃ marked, set_memory_region pmm_zero.system_accessible_frames 4096 8192
        = Except.ok marked ∧
      set_memory_region_effect pmm_zero.system_accessible_frames 4096 8192 = (marked, none)) :=
  ⟨((memory_region_panics_iff_unaligned pmm_zero.system_accessible_frames 2048 4096).1
      (Or.inl (by decide))).1,
    ((memory_region_panics_iff_unaligned pmm_zero.system_accessible_frames 4096 100).1
      (Or.inr (by decide))).2,
    ((memory_region_panics_iff_unaligned pmm_zero.system_accessible_frames 4096 8192).2
      (by decide) (by decide)).1⟩

/-! ## `memcmp`, `memset` and `realloc` on a null pointer -/

theorem memcmp_loop_nonpos (mem : memory_t) (a b : Nat) :
    ∀ (n i : Nat), memcmp_loop mem a b i n ≤ 0 := by
  intro n
  induction n with
  | zero =>
    intro i
    simp [memcmp_loop]
  | succ n ih =>
    intro i
    unfold memcmp_loop
    by_cases h : mem (a + i) < mem (b + i)
    · simp [h]
    · simp only [h, if_false, gt_iff_lt]
      exact ih (i + 1)

/-- C14, failing input: with the one-byte buffers `a = [2]` and `b = [1]`
`memcmp` returns 0 although the buffers differ and the byte of `a` is the
larger one; the second test of the loop repeats the first, so no call ever
returns a positive value. -/
theorem memcmp_returns_zero_on_larger_first_buffer :
    memcmp (fun x => if x = 0 then 2 else if x = 10 then 1 else 0) 0 10 1 = 0 ∧
    (fun x => if x = 0 then 2 else if x = 10 then 1 else 0 : memory_t) (0 + 0)
      ≠ (fun x => if x = 0 then 2 else if x = 10 then 1 else 0 : memory_t) (10 + 0) ∧
    ∀ (mem : memory_t) (aptr bptr size : Nat), memcmp mem aptr bptr size ≤ 0 := by
  refine ⟨by decide, by decide, ?_⟩
  intro mem aptr bptr size
  exact memcmp_loop_nonpos mem aptr bptr size 0

/-- C15, failing input: `memset(buf, 256, 4)` writes the bytes `0, 1, 1, 1`,
although 256 converted to `unsigned char` is 0; the word written by the 32-bit
loop is built from the whole `int`, not from its low byte as `val8` is. -/
theorem memset_writes_high_bits_of_value (mem : memory_t) (bufptr : Nat) :
    memset_val8 256 = 0 ∧
    (memset mem bufptr 256 4).2 bufptr = 0 ∧
    (memset mem bufptr 256 4).2 (bufptr + 1) = 1 ∧
    (memset mem bufptr 256 4).2 (bufptr + 2) = 1 ∧
    (memset mem bufptr 256 4).2 (bufptr + 3) = 1 := by
  have hv : memset_val32 256 = 16843008 := by decide
  have hm : (memset mem bufptr 256 4).2 = store32 mem bufptr 16843008 := by
    show memset_bytes (memset_val8 256) (bufptr + 4 / 4 * 4)
      (memset_dwords (memset_val32 256) bufptr mem 0 (4 / 4)) 0 (4 % 4) = _
    rw [hv]
    rfl
  rw [hm]
  refine ⟨by decide, ?_, ?_, ?_, ?_⟩ <;> simp [store32]

/-- C17: for every `size`, `realloc(NULL, size)` returns `NULL` and calls none
of `kmalloc`, `memcpy` and `kfree`: `getsize(NULL)` is the largest `size_t`,
which is -1 as the `int` `msize` and the largest `size_t` again in the
comparison with `size`. -/
theorem realloc_null_returns_null (heap : kernel_heap_t) (mem : memory_t) (size : Nat)
    (hsize : size < UINT32_MOD) :
    int_of_uint32 (getsize mem 0) = -1 ∧
    uint32_of_int (int_of_uint32 (getsize mem 0)) = UINT32_MOD - 1 ∧
    realloc heap mem 0 size = (0, mem, []) := by
  have hg : getsize mem 0 = 4294967295 := by
    simp [getsize, UINT32_MOD]
  have hi : int_of_uint32 (getsize mem 0) = -1 := by
    rw [hg]
    decide
  have hu : uint32_of_int (int_of_uint32 (getsize mem 0)) = UINT32_MOD - 1 := by
    rw [hi]
    decide
  refine ⟨hi, hu, ?_⟩
  unfold realloc
  simp only [hu]
  have hle : size ≤ UINT32_MOD - 1 := by omega
  simp [hle]

/-- C17, at the size 8 in a memory filled with `0xaa`. -/
theorem realloc_null_returns_null_witness :
    8 < UINT32_MOD ∧ realloc fixed_heap mem_aa 0 8 = (0, mem_aa, []) :=
  ⟨by decide, (realloc_null_returns_null fixed_heap mem_aa 8 (by decide)).2.2⟩

/-! ## `memset` with a value whose four bytes agree, and `calloc` -/

theorem store32_outside (mem : memory_t) (addr w x : Nat)
    (h : x < addr ∨ addr + 4 ≤ x) : store32 mem addr w x = mem x := by
  unfold store32
  rw [if_neg (by omega), if_neg (by omega), if_neg (by omega), if_neg (by omega)]

theorem store8_outside (mem : memory_t) (addr v x : Nat) (h : x ≠ addr) :
    store8 mem addr v x = mem x := by
  unfold store8
  rw [if_neg h]

theorem memset_dwords_uniform (val32 b dest32 : Nat) (h0 : val32 % 256 = b)
    (h1 : val32 / 256 % 256 = b) (h2 : val32 / 65536 % 256 = b)
    (h3 : val32 / 16777216 % 256 = b) :
    ∀ (n : Nat) (mem : memory_t) (i x : Nat),
      memset_dwords val32 dest32 mem i n x
        = if dest32 + 4 * i ≤ x ∧ x < dest32 + 4 * (i + n) then b else mem x := by
  intro n
  induction n with
  | zero =>
    intro mem i x
    simp only [memset_dwords]
    rw [if_neg (by omega)]
  | succ n ih =>
    intro mem i x
    simp only [memset_dwords]
    rw [ih]
    by_cases hA : dest32 + 4 * (i + 1) ≤ x ∧ x < dest32 + 4 * (i + 1 + n)
    · rw [if_pos hA, if_pos (by omega)]
    · rw [if_neg hA]
      by_cases hB : dest32 + 4 * i ≤ x ∧ x < dest32 + 4 * (i + (n + 1))
      · rw [if_pos hB]
        have hx : x = dest32 + 4 * i ∨ x = dest32 + 4 * i + 1 ∨ x = dest32 + 4 * i + 2 ∨
            x = dest32 + 4 * i + 3 := by omega
        rcases hx with h | h | h | h
        · rw [h]
          simp [store32, h0]
        · rw [h]
          simp [store32, h1]
        · rw [h]
          simp [store32, h2]
        · rw [h]
          simp [store32, h3]
      · rw [if_neg hB]
        exact store32_outside mem _ _ x (by omega)

theorem memset_bytes_spec (val8 dest8 : Nat) :
    ∀ (n : Nat) (mem : memory_t) (i x : Nat),
      memset_bytes val8 dest8 mem i n x
        = if dest8 + i ≤ x ∧ x < dest8 + i + n then val8 % 256 else mem x := by
  intro n
  induction n with
  | zero =>
    intro mem i x
    simp only [memset_bytes]
    rw [if_neg (by omega)]
  | succ n ih =>
    intro mem i x
    simp only [memset_bytes]
    rw [ih]
    by_cases hA : dest8 + (i + 1) ≤ x ∧ x < dest8 + (i + 1) + n
    · rw [if_pos hA, if_pos (by omega)]
    · rw [if_neg hA]
      by_cases hB : x = dest8 + i
      · rw [if_pos (by omega), hB]
        simp [store8]
      · rw [if_neg (by omega)]
        exact store8_outside mem _ _ x hB

theorem memset_uniform (mem : memory_t) (bufptr : Nat) (value : Int) (size b : Nat)
    (h0 : memset_val32 value % 256 = b) (h1 : memset_val32 value / 256 % 256 = b)
    (h2 : memset_val32 value / 65536 % 256 = b)
    (h3 : memset_val32 value / 16777216 % 256 = b) (h8 : memset_val8 value % 256 = b)
    (x : Nat) :
    (memset mem bufptr value size).2 x
      = if bufptr ≤ x ∧ x < bufptr + size then b else mem x := by
  show memset_bytes (memset_val8 value) (bufptr + size / 4 * 4)
    (memset_dwords (memset_val32 value) bufptr mem 0 (size / 4)) 0 (size % 4) x = _
  rw [memset_bytes_spec, memset_dwords_uniform _ b bufptr h0 h1 h2 h3, h8]
  by_cases hA : bufptr + size / 4 * 4 + 0 ≤ x ∧ x < bufptr + size / 4 * 4 + 0 + size % 4
  · rw [if_pos hA, if_pos (by omega)]
  · rw [if_neg hA]
    by_cases hB : bufptr + 4 * 0 ≤ x ∧ x < bufptr + 4 * (0 + size / 4)
    · rw [if_pos hB, if_pos (by omega)]
    · rw [if_neg hB, if_neg (by omega)]

theorem memset_zero (mem : memory_t) (bufptr size x : Nat) :
    (memset mem bufptr 0 size).2 x
      = if bufptr ≤ x ∧ x < bufptr + size then 0 else mem x :=
  memset_uniform mem bufptr 0 size 0 (by decide) (by decide) (by decide) (by decide)
    (by decide) x

/-- C13, as stated, fails: `calloc(65536, 65536)` asks `kmalloc` for 0 bytes,
the product reduced modulo 2^32, and clears none, so the byte at the pointer
returned keeps the value `0xaa` it had. -/
theorem calloc_product_wraps :
    (calloc fixed_heap mem_aa 65536 65536).2.2
      = [heap_call.kmalloc 0, heap_call.memset 1000 0] ∧
    (calloc fixed_heap mem_aa 65536 65536).2.1
      ((calloc fixed_heap mem_aa 65536 65536).1 + 0) = 170 ∧
    0 < 65536 * 65536 := by
  refine ⟨by decide, by decide, by decide⟩

/-- C13, amended: `calloc(num, size)` asks `kmalloc` for `num * size` modulo
2^32 bytes and returns the pointer `kmalloc` gives; each of that many bytes
from the pointer on reads as zero and every other byte is as `kmalloc` left
it; the count is the product itself when the product is below 2^32. -/
theorem calloc_zeroes_wrapped_product (heap : kernel_heap_t) (mem : memory_t)
    (num size : Nat) :
    (calloc heap mem num size).1 = (heap.kmalloc mem ((num * size) % UINT32_MOD)).1 ∧
    (calloc heap mem num size).2.2
      = [heap_call.kmalloc ((num * size) % UINT32_MOD),
         heap_call.memset (calloc heap mem num size).1 ((num * size) % UINT32_MOD)] ∧
    (∀ k, k < (num * size) % UINT32_MOD →
      (calloc heap mem num size).2.1 ((calloc heap mem num size).1 + k) = 0) ∧
    (∀ x, ¬ ((calloc heap mem num size).1 ≤ x ∧
        x < (calloc heap mem num size).1 + (num * size) % UINT32_MOD) →
      (calloc heap mem num size).2.1 x
        = (heap.kmalloc mem ((num * size) % UINT32_MOD)).2 x) ∧
    (num * size < UINT32_MOD → (num * size) % UINT32_MOD = num * size) := by
  refine ⟨rfl, rfl, ?_, ?_, ?_⟩
  · intro k hk
    show (memset (heap.kmalloc mem ((num * size) % UINT32_MOD)).2
      (heap.kmalloc mem ((num * size) % UINT32_MOD)).1 0 ((num * size) % UINT32_MOD)).2
      ((heap.kmalloc mem ((num * size) % UINT32_MOD)).1 + k) = 0
    rw [memset_zero, if_pos (by omega)]
  · intro x hx
    have hx2 : ¬ ((heap.kmalloc mem ((num * size) % UINT32_MOD)).1 ≤ x ∧
        x < (heap.kmalloc mem ((num * size) % UINT32_MOD)).1 + (num * size) % UINT32_MOD) := hx
    show (memset (heap.kmalloc mem ((num * size) % UINT32_MOD)).2
      (heap.kmalloc mem ((num * size) % UINT32_MOD)).1 0 ((num * size) % UINT32_MOD)).2 x = _
    rw [memset_zero, if_neg hx2]
  · intro h
    exact Nat.mod_eq_of_lt h

/-- C13 amended, at `calloc(3, 2)` in a memory filled with `0xaa`: six bytes
from the pointer on are zero and the next one is untouched. -/
theorem calloc_zeroes_wrapped_product_witness :
    3 * 2 < UINT32_MOD ∧ (3 * 2) % UINT32_MOD = 3 * 2 ∧
    (calloc fixed_heap mem_aa 3 2).1 = 1000 ∧
    (calloc fixed_heap mem_aa 3 2).2.1 ((calloc fixed_heap mem_aa 3 2).1 + 5) = 0 ∧
    (calloc fixed_heap mem_aa 3 2).2.1 1006 = 170 :=
  ⟨by decide, (calloc_zeroes_wrapped_product fixed_heap mem_aa 3 2).2.2.2.2 (by decide),
    by decide,
    (calloc_zeroes_wrapped_product fixed_heap mem_aa 3 2).2.2.1 5 (by decide),
    by decide⟩

/-! ## `memcpy` -/

theorem load32_byte0 (mem : memory_t) (addr : Nat) :
    load32 mem addr % 256 = mem addr % 256 := by
  unfold load32
  omega

theorem load32_byte1 (mem : memory_t) (addr : Nat) :
    load32 mem addr / 256 % 256 = mem (addr + 1) % 256 := by
  unfold load32
  omega

theorem load32_byte2 (mem : memory_t) (addr : Nat) :
    load32 mem addr / 65536 % 256 = mem (addr + 2) % 256 := by
  unfold load32
  omega

theorem load32_byte3 (mem : memory_t) (addr : Nat) :
    load32 mem addr / 16777216 % 256 = mem (addr + 3) % 256 := by
  unfold load32
  omega

theorem load32_lt (mem : memory_t) (addr : Nat) : load32 mem addr < UINT32_MOD := by
  unfold load32 UINT32_MOD
  omega

theorem memcpy_dwords_spec (dest32 src32 : Nat) :
    ∀ (n : Nat) (mem : memory_t) (i : Nat),
      (dest32 + 4 * (i + n) ≤ src32 ∨ src32 + 4 * (i + n) ≤ dest32) →
      ∀ x, memcpy_dwords dest32 src32 mem i n x
        = if dest32 + 4 * i ≤ x ∧ x < dest32 + 4 * (i + n)
          then mem (src32 + (x - dest32)) % 256 else mem x := by
  intro n
  induction n with
  | zero =>
    intro mem i _ x
    simp only [memcpy_dwords]
    rw [if_neg (by omega)]
  | succ n ih =>
    intro mem i hd x
    simp only [memcpy_dwords]
    rw [ih _ (i + 1) (by omega)]
    by_cases hA : dest32 + 4 * (i + 1) ≤ x ∧ x < dest32 + 4 * (i + 1 + n)
    · rw [if_pos hA, if_pos (by omega), store32_outside _ _ _ _ (by omega)]
    · rw [if_neg hA]
      by_cases hB : dest32 + 4 * i ≤ x ∧ x < dest32 + 4 * (i + (n + 1))
      · rw [if_pos hB]
        have hx : x = dest32 + 4 * i ∨ x = dest32 + 4 * i + 1 ∨ x = dest32 + 4 * i + 2 ∨
            x = dest32 + 4 * i + 3 := by omega
        rcases hx with h | h | h | h
        · have e : src32 + (x - dest32) = src32 + 4 * i := by omega
          rw [e, h]
          simp [store32, load32_byte0]
        · have e : src32 + (x - dest32) = src32 + 4 * i + 1 := by omega
          rw [e, h]
          simp [store32, load32_byte1]
        · have e : src32 + (x - dest32) = src32 + 4 * i + 2 := by omega
          rw [e, h]
          simp [store32, load32_byte2]
        · have e : src32 + (x - dest32) = src32 + 4 * i + 3 := by omega
          rw [e, h]
          simp [store32, load32_byte3]
      · rw [if_neg hB]
        exact store32_outside mem _ _ x (by omega)

theorem memcpy_bytes_spec (dest8 src8 : Nat) :
    ∀ (n : Nat) (mem : memory_t) (i : Nat),
      (dest8 + (i + n) ≤ src8 ∨ src8 + (i + n) ≤ dest8) →
      ∀ x, memcpy_bytes dest8 src8 mem i n x
        = if dest8 + i ≤ x ∧ x < dest8 + i + n
          then mem (src8 + (x - dest8)) % 256 else mem x := by
  intro n
  induction n with
  | zero =>
    intro mem i _ x
    simp only [memcpy_bytes]
    rw [if_neg (by omega)]
  | succ n ih =>
    intro mem i hd x
    simp only [memcpy_bytes]
    rw [ih _ (i + 1) (by omega)]
    by_cases hA : dest8 + (i + 1) ≤ x ∧ x < dest8 + (i + 1) + n
    · rw [if_pos hA, if_pos (by omega), store8_outside _ _ _ _ (by omega)]
    · rw [if_neg hA]
      by_cases hB : x = dest8 + i
      · have e : src8 + (x - dest8) = src8 + i := by omega
        rw [if_pos (by omega), e, hB]
        simp [store8]
      · rw [if_neg (by omega)]
        exact store8_outside mem _ _ x hB

theorem memcpy_bytewise_spec (mem : memory_t) (dstptr srcptr size : Nat)
    (hd : dstptr + size ≤ srcptr ∨ srcptr + size ≤ dstptr) (x : Nat) :
    memcpy_bytewise mem dstptr srcptr size x
      = if dstptr ≤ x ∧ x < dstptr + size
        then mem (srcptr + (x - dstptr)) % 256 else mem x := by
  unfold memcpy_bytewise
  rw [memcpy_bytes_spec dstptr srcptr size mem 0 (by omega)]
  by_cases hA : dstptr ≤ x ∧ x < dstptr + size
  · rw [if_pos (by omega), if_pos hA]
  · rw [if_neg (by omega), if_neg hA]

theorem memcpy_spec (mem : memory_t) (dstptr srcptr size : Nat)
    (hd : dstptr + size ≤ srcptr ∨ srcptr + size ≤ dstptr) (x : Nat) :
    (memcpy mem dstptr srcptr size).2 x
      = if dstptr ≤ x ∧ x < dstptr + size
        then mem (srcptr + (x - dstptr)) % 256 else mem x := by
  show memcpy_bytes (dstptr + size / 4 * 4) (srcptr + size / 4 * 4)
    (memcpy_dwords dstptr srcptr mem 0 (size / 4)) 0 (size % 4) x = _
  rw [memcpy_bytes_spec _ _ _ _ 0 (by omega)]
  by_cases hA : dstptr + size / 4 * 4 + 0 ≤ x ∧ x < dstptr + size / 4 * 4 + 0 + size % 4
  · have e : srcptr + size / 4 * 4 + (x - (dstptr + size / 4 * 4)) = srcptr + (x - dstptr) := by
      omega
    rw [if_pos hA, if_pos (by omega), e, memcpy_dwords_spec _ _ _ _ 0 (by omega),
      if_neg (by omega)]
  · rw [if_neg hA, memcpy_dwords_spec _ _ _ _ 0 (by omega)]
    by_cases hB : dstptr + 4 * 0 ≤ x ∧ x < dstptr + 4 * (0 + size / 4)
    · rw [if_pos hB, if_pos (by omega)]
    · rw [if_neg hB, if_neg (by omega)]

/-- C16: for non-overlapping `src` and `dst`, `memcpy` leaves the memory a
plain byte-by-byte copy leaves and returns `dst`; afterwards `dst[k] = src[k]`
for every `k < size`, and every byte outside the `size` bytes of `dst`, those
of `src` among them, is unchanged. -/
theorem memcpy_refines_bytewise (mem : memory_t) (dstptr srcptr size : Nat)
    (hwf : mem_wf mem)
    (hdisjoint : dstptr + size ≤ srcptr ∨ srcptr + size ≤ dstptr) :
    memcpy mem dstptr srcptr size = (dstptr, memcpy_bytewise mem dstptr srcptr size) ∧
    (∀ k, k < size → (memcpy mem dstptr srcptr size).2 (dstptr + k) = mem (srcptr + k)) ∧
    (∀ x, ¬ (dstptr ≤ x ∧ x < dstptr + size) →
      (memcpy mem dstptr srcptr size).2 x = mem x) ∧
    (∀ k, k < size → (memcpy mem dstptr srcptr size).2 (srcptr + k) = mem (srcptr + k)) := by
  refine ⟨?_, ?_, ?_, ?_⟩
  · have h2 : (memcpy mem dstptr srcptr size).2 = memcpy_bytewise mem dstptr srcptr size := by
      funext x
      rw [memcpy_spec mem dstptr srcptr size hdisjoint,
        memcpy_bytewise_spec mem dstptr srcptr size hdisjoint]
    exact Prod.ext rfl h2
  · intro k hk
    have e : srcptr + (dstptr + k - dstptr) = srcptr + k := by omega
    rw [memcpy_spec mem dstptr srcptr size hdisjoint, if_pos (by omega), e]
    exact Nat.mod_eq_of_lt (hwf _)
  · intro x hx
    rw [memcpy_spec mem dstptr srcptr size hdisjoint, if_neg hx]
  · intro k hk
    rw [memcpy_spec mem dstptr srcptr size hdisjoint, if_neg (by omega)]

theorem mem_block_wf : mem_wf mem_block := by
  intro x
  unfold mem_block
  split_ifs <;> omega

/-- C16, copying the six bytes at 100 of `mem_block` to 200. -/
theorem memcpy_refines_bytewise_witness :
    mem_wf mem_block ∧ (200 + 6 ≤ 100 ∨ 100 + 6 ≤ 200) ∧
    memcpy mem_block 200 100 6 = (200, memcpy_bytewise mem_block 200 100 6) ∧
    (memcpy mem_block 200 100 6).2 (200 + 5) = mem_block (100 + 5) ∧
    (memcpy mem_block 200 100 6).2 206 = mem_block 206 ∧
    (memcpy mem_block 200 100 6).2 (100 + 4) = mem_block (100 + 4) :=
  ⟨mem_block_wf, Or.inr (by decide),
    (memcpy_refines_bytewise mem_block 200 100 6 mem_block_wf (Or.inr (by decide))).1,
    (memcpy_refines_bytewise mem_block 200 100 6 mem_block_wf (Or.inr (by decide))).2.1 5
      (by decide),
    (memcpy_refines_bytewise mem_block 200 100 6 mem_block_wf (Or.inr (by decide))).2.2.1 206
      (by decide),
    (memcpy_refines_bytewise mem_block 200 100 6 mem_block_wf (Or.inr (by decide))).2.2.2 4
      (by decide)⟩

/-! ## `realloc` on a heap block -/

theorem uint32_of_int_of_uint32 (x : Nat) (h : x < UINT32_MOD) :
    uint32_of_int (int_of_uint32 x) = x := by
  unfold uint32_of_int int_of_uint32
  unfold UINT32_MOD at h ⊢
  rw [Nat.mod_eq_of_lt h]
  split <;> omega

theorem getsize_of_block (mem : memory_t) (ptr : Nat) (hptr : ptr ≠ 0) :
    getsize mem ptr = load32 mem (ptr - 4) := by
  unfold getsize
  rw [if_pos hptr]

/-- C12: for a non-null `ptr` whose size header holds `m`, `realloc(ptr, size)`
with `size <= m` returns `ptr` and makes no call; with `size > m` it calls
`kmalloc(size)`, `memcpy` of `m` bytes and `kfree(ptr)`, and returns the block
of `kmalloc`, whose first `m` bytes are those `ptr` held, provided `kmalloc`
gives a block apart from that of `ptr` and leaves the bytes of `ptr` alone,
and `kfree` leaves the bytes of the new block alone. -/
theorem realloc_preserves_block_bytes (heap : kernel_heap_t) (mem : memory_t) (ptr size m : Nat)
    (hptr : ptr ≠ 0) (hheader : load32 mem (ptr - 4) = m) :
    (size ≤ m → realloc heap mem ptr size = (ptr, mem, [])) ∧
    (m < size →
      mem_wf (heap.kmalloc mem size).2 →
      ((heap.kmalloc mem size).1 + m ≤ ptr ∨ ptr + m ≤ (heap.kmalloc mem size).1) →
      (∀ k, k < m → (heap.kmalloc mem size).2 (ptr + k) = mem (ptr + k)) →
      (∀ (mem2 : memory_t) (k : Nat), k < m →
        heap.kfree mem2 ptr ((heap.kmalloc mem size).1 + k)
          = mem2 ((heap.kmalloc mem size).1 + k)) →
      (realloc heap mem ptr size).1 = (heap.kmalloc mem size).1 ∧
      (realloc heap mem ptr size).2.2 = [heap_call.kmalloc size,
        heap_call.memcpy (heap.kmalloc mem size).1 ptr m, heap_call.kfree ptr] ∧
      ∀ k, k < m →
        (realloc heap mem ptr size).2.1 ((heap.kmalloc mem size).1 + k) = mem (ptr + k)) := by
  have hg : getsize mem ptr = m := by
    rw [getsize_of_block mem ptr hptr, hheader]
  have hm : m < UINT32_MOD := by
    rw [← hheader]
    exact load32_lt mem (ptr - 4)
  have hu : uint32_of_int (int_of_uint32 (getsize mem ptr)) = m := by
    rw [hg]
    exact uint32_of_int_of_uint32 m hm
  constructor
  · intro hle
    unfold realloc
    simp only [hu]
    rw [if_pos hle]
  · intro hlt hwf hdisjoint hkeep hfree
    have hr : realloc heap mem ptr size
        = ((heap.kmalloc mem size).1,
           heap.kfree (memcpy (heap.kmalloc mem size).2 (heap.kmalloc mem size).1 ptr m).2 ptr,
           [heap_call.kmalloc size, heap_call.memcpy (heap.kmalloc mem size).1 ptr m,
            heap_call.kfree ptr]) := by
      unfold realloc
      simp only [hu]
      rw [if_neg (by omega)]
    rw [hr]
    refine ⟨rfl, rfl, ?_⟩
    intro k hk
    have e : ptr + ((heap.kmalloc mem size).1 + k - (heap.kmalloc mem size).1) = ptr + k := by
      omega
    show heap.kfree (memcpy (heap.kmalloc mem size).2 (heap.kmalloc mem size).1 ptr m).2 ptr
      ((heap.kmalloc mem size).1 + k) = mem (ptr + k)
    rw [hfree _ k hk, memcpy_spec _ _ _ _ hdisjoint, if_pos (by omega), e,
      Nat.mod_eq_of_lt (hwf _), hkeep k hk]

/-- C12, at the block of two bytes at 104 in `mem_block`: a request of one byte
returns the block itself, and a request of eight bytes returns the block at
1000 holding the two bytes. -/
theorem realloc_preserves_block_bytes_witness :
    (104 ≠ 0 ∧ load32 mem_block (104 - 4) = 2) ∧
    realloc fixed_heap mem_block 104 1 = (104, mem_block, []) ∧
    (realloc fixed_heap mem_block 104 8).1 = (fixed_heap.kmalloc mem_block 8).1 ∧
    (realloc fixed_heap mem_block 104 8).2.2 = [heap_call.kmalloc 8,
      heap_call.memcpy (fixed_heap.kmalloc mem_block 8).1 104 2, heap_call.kfree 104] ∧
    ∀ k, k < 2 →
      (realloc fixed_heap mem_block 104 8).2.1 ((fixed_heap.kmalloc mem_block 8).1 + k)
        = mem_block (104 + k) :=
  have hwf : mem_wf (fixed_heap.kmalloc mem_block 8).2 := by
    intro x
    show store32 mem_block 996 8 x < 256
    unfold store32 mem_block
    split_ifs <;> omega
  have hkeep : ∀ k, k < 2 → (fixed_heap.kmalloc mem_block 8).2 (104 + k) = mem_block (104 + k) :=
    fun k hk => store32_outside mem_block 996 8 (104 + k) (by omega)
  ⟨⟨by decide, by decide⟩,
    (realloc_preserves_block_bytes fixed_heap mem_block 104 1 2 (by decide) (by decide)).1 (by decide),
    (realloc_preserves_block_bytes fixed_heap mem_block 104 8 2 (by decide) (by decide)).2 (by decide)
      hwf (Or.inr (by decide)) hkeep (fun _ _ _ => rfl)⟩

/-! ## The text terminal: colours -/

theorem make_color_of_nibbles :
    ∀ fg, fg < 16 → ∀ bg, bg < 16 → make_color fg bg = fg + 16 * bg := by
  decide

/-- C20: for `fg` and `bg` in 0..15, `make_color(fg, bg)` is `fg + 16 * bg`, the
byte with low nibble `fg` and high nibble `bg`; and `terminal_settextcolor(col)`
with `col` in 0..15 makes `col` the low nibble of `terminal_color` and keeps
its high nibble, and the other globals. -/
theorem make_color_and_settextcolor_nibbles :
    (∀ fg bg, fg < 16 → bg < 16 →
      make_color fg bg = fg + 16 * bg ∧ make_color fg bg % 16 = fg ∧
        make_color fg bg / 16 = bg) ∧
    (∀ (t : terminal_t) (col : Nat), col < 16 → t.terminal_color < 256 →
      (terminal_settextcolor t col).terminal_color % 16 = col ∧
      (terminal_settextcolor t col).terminal_color / 16 = t.terminal_color / 16 ∧
      (terminal_settextcolor t col).terminal_row = t.terminal_row ∧
      (terminal_settextcolor t col).terminal_column = t.terminal_column ∧
      (terminal_settextcolor t col).terminal_buffer = t.terminal_buffer) := by
  constructor
  · intro fg bg hfg hbg
    have h := make_color_of_nibbles fg hfg bg hbg
    rw [h]
    refine ⟨rfl, by omega, by omega⟩
  · intro t col hcol hcolor
    have hshift : t.terminal_color >>> 4 = t.terminal_color / 16 := by
      rw [Nat.shiftRight_eq_div_pow]
    have hbg : t.terminal_color / 16 < 16 := by omega
    have h : (terminal_settextcolor t col).terminal_color
        = col + 16 * (t.terminal_color / 16) := by
      show make_color col (t.terminal_color >>> 4) = _
      rw [hshift]
      exact make_color_of_nibbles col hcol _ hbg
    rw [h]
    refine ⟨by omega, by omega, rfl, rfl, rfl⟩

/-- C20, at light green on black and at a terminal whose colour is `0x4f`. -/
theorem make_color_and_settextcolor_nibbles_witness :
    (make_color 10 0 = 10 + 16 * 0 ∧ make_color 10 0 % 16 = 10 ∧ make_color 10 0 / 16 = 0) ∧
    ((terminal_settextcolor (terminal_t.mk 3 7 79 (fun _ => 0)) 2).terminal_color % 16 = 2 ∧
      (terminal_settextcolor (terminal_t.mk 3 7 79 (fun _ => 0)) 2).terminal_color / 16
        = 79 / 16) :=
  ⟨make_color_and_settextcolor_nibbles.1 10 0 (by decide) (by decide),
    (make_color_and_settextcolor_nibbles.2 (terminal_t.mk 3 7 79 (fun _ => 0)) 2
      (by decide) (by decide)).1,
    (make_color_and_settextcolor_nibbles.2 (terminal_t.mk 3 7 79 (fun _ => 0)) 2
      (by decide) (by decide)).2.1⟩

/-! ## The text terminal: the cursor -/

theorem terminal_putchar_newline (t : terminal_t) (h : t.terminal_row + 1 < 25) :
    terminal_putchar t 10
      = terminal_t.mk (t.terminal_row + 1) 1 t.terminal_color t.terminal_buffer := by
  have hrow : (t.terminal_row + 1) % UINT32_MOD = t.terminal_row + 1 := by
    unfold UINT32_MOD
    omega
  have hge : ¬ t.terminal_row + 1 ≥ VGA_HEIGHT := by
    unfold VGA_HEIGHT
    omega
  unfold terminal_putchar
  simp only [if_true, hrow, if_neg hge]
  unfold terminal_advance
  have hcol : (0 + 1) % UINT32_MOD = 1 := by decide
  have hne : ¬ (1 = VGA_WIDTH) := by decide
  simp only [hcol, if_neg hne]

theorem terminal_putchar_tab (t : terminal_t) (h1 : t.terminal_column + 5 < UINT32_MOD)
    (h2 : t.terminal_column + 5 ≠ 80) :
    terminal_putchar t 9
      = terminal_t.mk t.terminal_row (t.terminal_column + 5) t.terminal_color
          t.terminal_buffer := by
  have h4 : (t.terminal_column + 4) % UINT32_MOD = t.terminal_column + 4 := by
    unfold UINT32_MOD at h1 ⊢
    omega
  have h5 : (t.terminal_column + 4 + 1) % UINT32_MOD = t.terminal_column + 5 := by
    unfold UINT32_MOD at h1 ⊢
    omega
  have hne : ¬ (t.terminal_column + 5 = VGA_WIDTH) := h2
  have h9 : ¬ ((9 : Nat) = 10) := by decide
  unfold terminal_putchar
  simp only [if_neg h9, if_true, h4]
  unfold terminal_advance
  simp only [h5, if_neg hne]

theorem terminal_putchars_newlines :
    ∀ (n : Nat) (t : terminal_t), t.terminal_row + (n + 1) < 25 →
      terminal_putchars t (List.replicate (n + 1) 10)
        = terminal_t.mk (t.terminal_row + (n + 1)) 1 t.terminal_color t.terminal_buffer := by
  intro n
  induction n with
  | zero =>
    intro t h
    show terminal_putchars (terminal_putchar t 10) [] = _
    rw [terminal_putchar_newline t (by omega)]
    rfl
  | succ n ih =>
    intro t h
    show terminal_putchars (terminal_putchar t 10) (List.replicate (n + 1) 10) = _
    rw [terminal_putchar_newline t (by omega), ih _ (by simpa using (by omega))]
    simp only [terminal_t.mk.injEq, and_true, true_and]
    omega

theorem terminal_putchars_tabs :
    ∀ (n : Nat) (t : terminal_t), t.terminal_column % 5 = 1 →
      t.terminal_column + 5 * n < UINT32_MOD →
      terminal_putchars t (List.replicate n 9)
        = terminal_t.mk t.terminal_row (t.terminal_column + 5 * n) t.terminal_color
            t.terminal_buffer := by
  intro n
  induction n with
  | zero =>
    intro t _ _
    rfl
  | succ n ih =>
    intro t hmod hlt
    show terminal_putchars (terminal_putchar t 9) (List.replicate n 9) = _
    rw [terminal_putchar_tab t (by omega) (by omega),
      ih _ (by simpa using (by omega)) (by simpa using (by omega))]
    simp only [terminal_t.mk.injEq, and_true, true_and]
    omega

theorem terminal_putchars_append :
    ∀ (xs ys : List Nat) (t : terminal_t),
      terminal_putchars t (xs ++ ys) = terminal_putchars (terminal_putchars t xs) ys := by
  intro xs
  induction xs with
  | nil =>
    intro ys t
    rfl
  | cons c rest ih =>
    intro ys t
    show terminal_putchars (terminal_putchar t c) (rest ++ ys) = _
    rw [ih]
    rfl

theorem terminal_after_newlines_then_tabs (t : terminal_t) (h0 : t.terminal_row = 0) :
    terminal_putchars t newlines_then_tabs
      = terminal_t.mk 24 81 t.terminal_color t.terminal_buffer := by
  unfold newlines_then_tabs
  rw [terminal_putchars_append, terminal_putchars_newlines 23 t (by omega),
    terminal_putchars_tabs 16
      (terminal_t.mk (t.terminal_row + (23 + 1)) 1 t.terminal_color t.terminal_buffer)
      (show 1 % 5 = 1 by decide) (show 1 + 5 * 16 < UINT32_MOD by decide)]
  simp only [terminal_t.mk.injEq, and_true, true_and]
  omega

/-- C19, failing input: after terminal_initialize, twenty-four newlines and
sixteen tabs leave `terminal_column` at 81, outside the 80 columns, because a
tab moves the column by five and the wrap test is an equality with
`VGA_WIDTH`; the next printed character is written at index 2001, past the
2000 cells of the screen. -/
theorem terminal_tabs_leave_screen (COLOR_LIGHT_BLUE COLOR_BLACK : Nat) (vga : Nat → Nat) :
    (terminal_putchars ( terminal_initialize COLOR_LIGHT_BLUE COLOR_BLACK vga)
      newlines_then_tabs).terminal_column = 81 ∧
    (terminal_putchars ( terminal_initialize COLOR_LIGHT_BLUE COLOR_BLACK vga)
      newlines_then_tabs).terminal_row = 24 ∧
    VGA_WIDTH ≤ 81 ∧
    terminal_index 81 24 = 2001 ∧ VGA_WIDTH * VGA_HEIGHT ≤ 2001 ∧
    (terminal_putchar (terminal_putchars
        ( terminal_initialize COLOR_LIGHT_BLUE COLOR_BLACK vga) newlines_then_tabs)
      120).terminal_buffer 2001
      = make_vgaentry 120 (make_color COLOR_LIGHT_BLUE COLOR_BLACK) := by
  have hrun := terminal_after_newlines_then_tabs
    ( terminal_initialize COLOR_LIGHT_BLUE COLOR_BLACK vga) rfl
  rw [hrun]
  refine ⟨rfl, rfl, by decide, by decide, by decide, ?_⟩
  have h1 : ¬ ((120 : Nat) = 10) := by decide
  have h2 : ¬ ((120 : Nat) = 9) := by decide
  have h3 : ¬ ((81 + 1) % UINT32_MOD = VGA_WIDTH) := by decide
  have h4 : terminal_index 81 24 = 2001 := by decide
  unfold terminal_putchar
  simp only [if_neg h1, if_neg h2]
  unfold terminal_advance
  simp only [if_neg h3]
  unfold terminal_putentryat
  simp only [h4, if_true]
  rfl

/-! ## The text terminal: scrolling -/

theorem or_mul_two_pow_eight (a b : Nat) : 2 ^ 8 * a ||| 2 ^ 8 * b = 2 ^ 8 * (a ||| b) := by
  apply Nat.eq_of_testBit_eq
  intro j
  simp only [Nat.testBit_or, Nat.testBit_mul_pow_two]
  cases decide (j ≥ 8) <;> simp

theorem or_255_of_byte (h : Nat) (hh : h < 256) : 255 ||| h = 255 := by
  apply Nat.eq_of_testBit_eq
  intro j
  have h255 : (255 : Nat) = 2 ^ 8 - 1 := by norm_num
  rw [Nat.testBit_or, h255, Nat.testBit_two_pow_sub_one]
  by_cases hj : j < 8
  · simp [hj]
  · have hlt : h < 2 ^ j :=
      calc h < 2 ^ 8 := by omega
        _ ≤ 2 ^ j := Nat.pow_le_pow_right (by norm_num) (by omega)
    simp [hj, Nat.testBit_lt_two_pow hlt]

theorem vga_scrolled_entry_of_ascii (e : Nat) (he : e < 65536) (hc : e % 256 < 128) :
    vga_scrolled_entry e = e := by
  have hlo : e % 256 % 256 < 2 ^ 8 := by omega
  have hc2 : e % 256 % 256 < 128 := by omega
  unfold vga_scrolled_entry make_vgaentry char_to_uint16
  simp only [if_pos hc2]
  rw [Nat.shiftLeft_eq, Nat.shiftRight_eq_div_pow, Nat.or_comm, Nat.mul_comm _ (2 ^ 8),
    ← Nat.mul_add_lt_is_or hlo]
  omega

theorem vga_scrolled_entry_of_high (e : Nat) (hc : 128 ≤ e % 256) :
    vga_scrolled_entry e = 65280 + e % 256 := by
  have hlo : e % 256 % 256 < 2 ^ 8 := by omega
  have hc2 : ¬ e % 256 % 256 < 128 := by omega
  have hh : (e >>> 8) % 256 % 256 < 256 := by omega
  have h255 : e % 256 % 256 + 65280 = 2 ^ 8 * 255 + e % 256 % 256 := by omega
  unfold vga_scrolled_entry make_vgaentry char_to_uint16
  simp only [if_neg hc2]
  rw [Nat.shiftLeft_eq, Nat.mul_comm _ (2 ^ 8), h255, Nat.mul_add_lt_is_or hlo,
    Nat.or_assoc, Nat.or_comm (e % 256 % 256), ← Nat.or_assoc, or_mul_two_pow_eight,
    or_255_of_byte _ hh, ← Nat.mul_add_lt_is_or hlo]
  omega

theorem terminal_putentryat_apply (buffer : Nat → Nat) (c color x y k : Nat)
    (h : y * 80 + x < 4294967296) :
    terminal_putentryat buffer c color x y k
      = if k = y * 80 + x then make_vgaentry c color else buffer k := by
  have hidx : terminal_index x y = y * 80 + x := by
    unfold terminal_index VGA_WIDTH UINT32_MOD
    omega
  unfold terminal_putentryat
  rw [hidx]

theorem push_back_cols_spec (row : Nat) (hrow : row ≤ 25) :
    ∀ (n : Nat) (buffer : Nat → Nat) (col : Nat), col + n ≤ 80 →
      ∀ k, push_back_cols row buffer col n k
        = if row * 80 + col ≤ k ∧ k < row * 80 + col + n
          then vga_scrolled_entry (buffer (k + 80)) else buffer k := by
  intro n
  induction n with
  | zero =>
    intro buffer col _ k
    have hno : ¬ (row * 80 + col ≤ k ∧ k < row * 80 + col + 0) := by omega
    simp only [push_back_cols]
    rw [if_neg hno]
  | succ n ih =>
    intro buffer col hcol k
    have hsrc : ((row + 1) * VGA_WIDTH + col) % UINT32_MOD = row * 80 + col + 80 := by
      unfold VGA_WIDTH UINT32_MOD
      omega
    simp only [push_back_cols]
    rw [ih _ (col + 1) (by omega), hsrc]
    by_cases hA : row * 80 + (col + 1) ≤ k ∧ k < row * 80 + (col + 1) + n
    · have hR : row * 80 + col ≤ k ∧ k < row * 80 + col + (n + 1) := by omega
      have hne : ¬ k + 80 = row * 80 + col := by omega
      rw [if_pos hA, if_pos hR, terminal_putentryat_apply _ _ _ _ _ _ (by omega), if_neg hne]
    · rw [if_neg hA, terminal_putentryat_apply _ _ _ _ _ _ (by omega)]
      by_cases hB : k = row * 80 + col
      · have hR : row * 80 + col ≤ k ∧ k < row * 80 + col + (n + 1) := by omega
        rw [if_pos hB, if_pos hR, hB]
        rfl
      · have hR : ¬ (row * 80 + col ≤ k ∧ k < row * 80 + col + (n + 1)) := by omega
        rw [if_neg hB, if_neg hR]

theorem push_back_rows_spec :
    ∀ (n : Nat) (buffer : Nat → Nat) (row : Nat), row + n ≤ 25 →
      ∀ k, push_back_rows buffer row n k
        = if row * 80 ≤ k ∧ k < (row + n) * 80
          then vga_scrolled_entry (buffer (k + 80)) else buffer k := by
  intro n
  induction n with
  | zero =>
    intro buffer row _ k
    have hno : ¬ (row * 80 ≤ k ∧ k < (row + 0) * 80) := by omega
    simp only [push_back_rows]
    rw [if_neg hno]
  | succ n ih =>
    intro buffer row hrow k
    have hcols : ∀ x, push_back_cols row buffer 0 VGA_WIDTH x
        = if row * 80 + 0 ≤ x ∧ x < row * 80 + 0 + 80
          then vga_scrolled_entry (buffer (x + 80)) else buffer x :=
      fun x => push_back_cols_spec row (by omega) 80 buffer 0 (by omega) x
    simp only [push_back_rows]
    rw [ih _ (row + 1) (by omega)]
    by_cases hA : (row + 1) * 80 ≤ k ∧ k < (row + 1 + n) * 80
    · have hR : row * 80 ≤ k ∧ k < (row + (n + 1)) * 80 := by omega
      have hno : ¬ (row * 80 + 0 ≤ k + 80 ∧ k + 80 < row * 80 + 0 + 80) := by omega
      rw [if_pos hA, if_pos hR, hcols, if_neg hno]
    · rw [if_neg hA, hcols]
      by_cases hB : row * 80 + 0 ≤ k ∧ k < row * 80 + 0 + 80
      · have hR : row * 80 ≤ k ∧ k < (row + (n + 1)) * 80 := by omega
        rw [if_pos hB, if_pos hR]
      · have hR : ¬ (row * 80 ≤ k ∧ k < (row + (n + 1)) * 80) := by omega
        rw [if_neg hB, if_neg hR]

theorem terminal_push_back_line_buffer (t : terminal_t) :
    (terminal_push_back_line t).terminal_buffer
      = push_back_rows t.terminal_buffer 0 VGA_HEIGHT := by
  simp only [terminal_push_back_line]

theorem terminal_push_back_line_cell (t : terminal_t) (r c : Nat) (hr : r < 25)
    (hc : c < 80) :
    (terminal_push_back_line t).terminal_buffer (r * 80 + c)
      = vga_scrolled_entry (t.terminal_buffer ((r + 1) * 80 + c)) := by
  have e : r * 80 + c + 80 = (r + 1) * 80 + c := by omega
  have hin : 0 * 80 ≤ r * 80 + c ∧ r * 80 + c < (0 + 25) * 80 := by omega
  have hrows := push_back_rows_spec 25 t.terminal_buffer 0 (by omega) (r * 80 + c)
  rw [if_pos hin, e] at hrows
  rw [terminal_push_back_line_buffer]
  exact hrows

/-- C18, as stated, fails: with the entry `0x0780` (character `0x80`, colour
`0x07`) in column 0 of row 1, a buffer content no store of kernel.c produces,
`terminal_push_back_line` leaves `0xff80` in column 0 of row 0, not the entry
the cell below held: the entry read is passed through a signed `char`, whose
sign extension sets every bit of the colour byte.  The neighbouring grey space
moves up intact, and the cursor is left at column 0 of row 24. -/
theorem terminal_push_back_line_sign_extends :
    terminal_high_char.terminal_buffer ((0 + 1) * 80 + 0) = 1920 ∧
    (terminal_push_back_line terminal_high_char).terminal_buffer (0 * 80 + 0) = 65408 ∧
    (terminal_push_back_line terminal_high_char).terminal_buffer (0 * 80 + 1)
      = terminal_high_char.terminal_buffer ((0 + 1) * 80 + 1) ∧
    (terminal_push_back_line terminal_high_char).terminal_column = 0 ∧
    (terminal_push_back_line terminal_high_char).terminal_row = VGA_HEIGHT - 1 := by
  refine ⟨by decide, ?_, ?_, rfl, rfl⟩
  · rw [terminal_push_back_line_cell terminal_high_char 0 0 (by decide) (by decide)]
    decide
  · rw [terminal_push_back_line_cell terminal_high_char 0 1 (by decide) (by decide)]
    decide

/-! ## Further facts about `terminal_putchar` and `memcmp` -/

theorem terminal_push_back_line_row (t : terminal_t) :
    (terminal_push_back_line t).terminal_row = 24 := by
  simp only [terminal_push_back_line, VGA_HEIGHT]

theorem terminal_advance_row_lt (t : terminal_t) (h : t.terminal_row < 25) :
    (terminal_advance t).terminal_row < 25 := by
  have hrow : (t.terminal_row + 1) % UINT32_MOD = t.terminal_row + 1 := by
    unfold UINT32_MOD
    omega
  unfold terminal_advance
  simp only [hrow]
  by_cases hc : (t.terminal_column + 1) % UINT32_MOD = VGA_WIDTH
  · rw [if_pos hc]
    by_cases hr : t.terminal_row + 1 = VGA_HEIGHT
    · rw [if_pos hr, terminal_push_back_line_row]
      omega
    · rw [if_neg hr]
      unfold VGA_HEIGHT at hr
      show t.terminal_row + 1 < 25
      omega
  · rw [if_neg hc]
    exact h

theorem terminal_putchar_row_lt (t : terminal_t) (c : Nat) (h : t.terminal_row < 25) :
    (terminal_putchar t c).terminal_row < 25 := by
  have hrow : (t.terminal_row + 1) % UINT32_MOD = t.terminal_row + 1 := by
    unfold UINT32_MOD
    omega
  unfold terminal_putchar
  simp only [hrow]
  by_cases h10 : c = 10
  · rw [if_pos h10]
    by_cases hr : t.terminal_row + 1 ≥ VGA_HEIGHT
    · rw [if_pos hr]
      apply terminal_advance_row_lt
      rw [terminal_push_back_line_row]
      omega
    · rw [if_neg hr]
      apply terminal_advance_row_lt
      unfold VGA_HEIGHT at hr
      show t.terminal_row + 1 < 25
      omega
  · rw [if_neg h10]
    by_cases h9 : c = 9
    · rw [if_pos h9]
      exact terminal_advance_row_lt _ h
    · rw [if_neg h9]
      exact terminal_advance_row_lt _ h

theorem memcmp_loop_eq_zero_iff (mem : memory_t) (a b : Nat) :
    ∀ (n i : Nat), memcmp_loop mem a b i n = 0 ↔
      ∀ k, i ≤ k → k < i + n → ¬ mem (a + k) < mem (b + k) := by
  intro n
  induction n with
  | zero =>
    intro i
    simp only [memcmp_loop, true_iff]
    intro k h1 h2
    omega
  | succ n ih =>
    intro i
    unfold memcmp_loop
    by_cases h : mem (a + i) < mem (b + i)
    · rw [if_pos h]
      constructor
      · intro h0
        exact absurd h0 (by decide)
      · intro hall
        exact absurd h (hall i (le_refl _) (by omega))
    · have h2 : ¬ mem (b + i) > mem (a + i) := h
      rw [if_neg h, if_neg h2, ih (i + 1)]
      constructor
      · intro hall k hk1 hk2
        by_cases hki : k = i
        · rw [hki]
          exact h
        · exact hall k (by omega) (by omega)
      · intro hall k hk1 hk2
        exact hall k (by omega) (by omega)

/-! ## The text terminal: entries written by `make_vgaentry` -/

theorem make_vgaentry_of_ascii (c color : Nat) (hc : c % 256 < 128) :
    make_vgaentry c color = c % 256 + 256 * (color % 256) := by
  have hlo : c % 256 < 2 ^ 8 := by omega
  unfold make_vgaentry char_to_uint16
  simp only [if_pos hc]
  rw [Nat.shiftLeft_eq, Nat.or_comm, Nat.mul_comm _ (2 ^ 8), ← Nat.mul_add_lt_is_or hlo]
  omega

theorem make_vgaentry_of_high (c color : Nat) (hc : 128 ≤ c % 256) :
    make_vgaentry c color = 65280 + c % 256 := by
  have hlo : c % 256 < 2 ^ 8 := by omega
  have hc2 : ¬ c % 256 < 128 := by omega
  have hh : color % 256 < 256 := by omega
  have h255 : c % 256 + 65280 = 2 ^ 8 * 255 + c % 256 := by omega
  unfold make_vgaentry char_to_uint16
  simp only [if_neg hc2]
  rw [Nat.shiftLeft_eq, Nat.mul_comm _ (2 ^ 8), h255, Nat.mul_add_lt_is_or hlo,
    Nat.or_assoc, Nat.or_comm (c % 256), ← Nat.or_assoc, or_mul_two_pow_eight,
    or_255_of_byte _ hh, ← Nat.mul_add_lt_is_or hlo]
  omega

theorem vga_scrolled_entry_of_written (e : Nat) (h : vga_entry_written e) :
    vga_scrolled_entry e = e := by
  obtain ⟨c, color, he⟩ := h
  by_cases hc : c % 256 < 128
  · have hval := make_vgaentry_of_ascii c color hc
    rw [he, hval]
    exact vga_scrolled_entry_of_ascii _ (by omega) (by omega)
  · have hval := make_vgaentry_of_high c color (by omega)
    rw [he, hval, vga_scrolled_entry_of_high _ (by omega)]
    omega

theorem terminal_clear_cols_spec (color y : Nat) (hy : y ≤ 25) :
    ∀ (n : Nat) (buffer : Nat → Nat) (x : Nat), x + n ≤ 80 →
      ∀ k, terminal_clear_cols color y buffer x n k
        = if y * 80 + x ≤ k ∧ k < y * 80 + x + n
          then make_vgaentry 32 color else buffer k := by
  intro n
  induction n with
  | zero =>
    intro buffer x _ k
    have hno : ¬ (y * 80 + x ≤ k ∧ k < y * 80 + x + 0) := by omega
    simp only [terminal_clear_cols]
    rw [if_neg hno]
  | succ n ih =>
    intro buffer x hx k
    have hidx : terminal_index x y = y * 80 + x := by
      unfold terminal_index VGA_WIDTH UINT32_MOD
      omega
    simp only [terminal_clear_cols]
    rw [ih _ (x + 1) (by omega), hidx]
    by_cases hA : y * 80 + (x + 1) ≤ k ∧ k < y * 80 + (x + 1) + n
    · have hR : y * 80 + x ≤ k ∧ k < y * 80 + x + (n + 1) := by omega
      rw [if_pos hA, if_pos hR]
    · rw [if_neg hA]
      by_cases hB : k = y * 80 + x
      · have hR : y * 80 + x ≤ k ∧ k < y * 80 + x + (n + 1) := by omega
        rw [if_pos hB, if_pos hR]
      · have hR : ¬ (y * 80 + x ≤ k ∧ k < y * 80 + x + (n + 1)) := by omega
        rw [if_neg hB, if_neg hR]

theorem terminal_clear_rows_spec (color : Nat) :
    ∀ (n : Nat) (buffer : Nat → Nat) (y : Nat), y + n ≤ 25 →
      ∀ k, terminal_clear_rows color buffer y n k
        = if y * 80 ≤ k ∧ k < (y + n) * 80
          then make_vgaentry 32 color else buffer k := by
  intro n
  induction n with
  | zero =>
    intro buffer y _ k
    have hno : ¬ (y * 80 ≤ k ∧ k < (y + 0) * 80) := by omega
    simp only [terminal_clear_rows]
    rw [if_neg hno]
  | succ n ih =>
    intro buffer y hy k
    have hcols : ∀ x, terminal_clear_cols color y buffer 0 VGA_WIDTH x
        = if y * 80 + 0 ≤ x ∧ x < y * 80 + 0 + 80
          then make_vgaentry 32 color else buffer x :=
      fun x => terminal_clear_cols_spec color y (by omega) 80 buffer 0 (by omega) x
    simp only [terminal_clear_rows]
    rw [ih _ (y + 1) (by omega)]
    by_cases hA : (y + 1) * 80 ≤ k ∧ k < (y + 1 + n) * 80
    · have hR : y * 80 ≤ k ∧ k < (y + (n + 1)) * 80 := by omega
      rw [if_pos hA, if_pos hR]
    · rw [if_neg hA, hcols]
      by_cases hB : y * 80 + 0 ≤ k ∧ k < y * 80 + 0 + 80
      · have hR : y * 80 ≤ k ∧ k < (y + (n + 1)) * 80 := by omega
        rw [if_pos hB, if_pos hR]
      · have hR : ¬ (y * 80 ≤ k ∧ k < (y + (n + 1)) * 80) := by omega
        rw [if_neg hB, if_neg hR]

theorem terminal_clear_buffer (t : terminal_t) :
    (terminal_clear t).terminal_buffer
      = terminal_clear_rows t.terminal_color t.terminal_buffer 0 VGA_HEIGHT := by
  simp only [terminal_clear]

theorem terminal_clear_written (t : terminal_t) : terminal_written (terminal_clear t) := by
  intro k hk
  have hrows := terminal_clear_rows_spec t.terminal_color 25 t.terminal_buffer 0 (by omega) k
  have hin : 0 * 80 ≤ k ∧ k < (0 + 25) * 80 := by omega
  rw [if_pos hin] at hrows
  rw [terminal_clear_buffer]
  exact ⟨32, t.terminal_color, hrows⟩

theorem terminal_push_back_line_written (t : terminal_t) :
    terminal_written (terminal_push_back_line t) := by
  intro k hk
  have hrows := push_back_rows_spec 25 t.terminal_buffer 0 (by omega) k
  have hin : 0 * 80 ≤ k ∧ k < (0 + 25) * 80 := by omega
  rw [if_pos hin] at hrows
  rw [terminal_push_back_line_buffer]
  exact ⟨_, _, hrows⟩

theorem terminal_advance_written (t : terminal_t) (h : terminal_written t) :
    terminal_written (terminal_advance t) := by
  unfold terminal_advance
  simp only
  by_cases hc : (t.terminal_column + 1) % UINT32_MOD = VGA_WIDTH
  · rw [if_pos hc]
    by_cases hr : (t.terminal_row + 1) % UINT32_MOD = VGA_HEIGHT
    · rw [if_pos hr]
      exact terminal_push_back_line_written _
    · rw [if_neg hr]
      exact h
  · rw [if_neg hc]
    exact h

theorem terminal_putchar_written (t : terminal_t) (c : Nat) (h : terminal_written t) :
    terminal_written (terminal_putchar t c) := by
  unfold terminal_putchar
  simp only
  by_cases h10 : c = 10
  · rw [if_pos h10]
    by_cases hr : (t.terminal_row + 1) % UINT32_MOD ≥ VGA_HEIGHT
    · rw [if_pos hr]
      exact terminal_advance_written _ (terminal_push_back_line_written _)
    · rw [if_neg hr]
      exact terminal_advance_written _ h
  · rw [if_neg h10]
    by_cases h9 : c = 9
    · rw [if_pos h9]
      exact terminal_advance_written _ h
    · rw [if_neg h9]
      apply terminal_advance_written
      intro k hk
      show vga_entry_written (terminal_putentryat t.terminal_buffer c t.terminal_color
        t.terminal_column t.terminal_row k)
      unfold terminal_putentryat
      by_cases hidx : k = terminal_index t.terminal_column t.terminal_row
      · rw [if_pos hidx]
        exact ⟨c, t.terminal_color, rfl⟩
      · rw [if_neg hidx]
        exact h k hk

theorem terminal_putchars_written :
    ∀ (chars : List Nat) (t : terminal_t), terminal_written t →
      terminal_written (terminal_putchars t chars) := by
  intro chars
  induction chars with
  | nil =>
    intro t h
    exact h
  | cons c rest ih =>
    intro t h
    exact ih (terminal_putchar t c) (terminal_putchar_written t c h)

theorem terminal_reachable_written (COLOR_LIGHT_BLUE COLOR_BLACK : Nat) (vga : Nat → Nat)
    (chars : List Nat) :
    terminal_written
      (terminal_putchars ( terminal_initialize COLOR_LIGHT_BLUE COLOR_BLACK vga) chars) :=
  terminal_putchars_written chars _ (terminal_clear_written _)

theorem terminal_putchar_printable (t : terminal_t) (c : Nat) (h10 : c ≠ 10) (h9 : c ≠ 9)
    (hcol : (t.terminal_column + 1) % UINT32_MOD ≠ VGA_WIDTH) :
    terminal_putchar t c
      = terminal_t.mk t.terminal_row ((t.terminal_column + 1) % UINT32_MOD) t.terminal_color
          (terminal_putentryat t.terminal_buffer c t.terminal_color t.terminal_column
            t.terminal_row) := by
  unfold terminal_putchar
  simp only [if_neg h10, if_neg h9]
  unfold terminal_advance
  simp only [if_neg hcol]

theorem terminal_newline_high_char_cell (t : terminal_t) (hrow : t.terminal_row = 0)
    (hcolor : t.terminal_color = 9) :
    (terminal_putchar (terminal_putchar t 10) 128).terminal_buffer 81 = 65408 := by
  have hcol : ((terminal_t.mk (t.terminal_row + 1) 1 t.terminal_color
      t.terminal_buffer).terminal_column + 1) % UINT32_MOD ≠ VGA_WIDTH := by
    show (1 + 1) % UINT32_MOD ≠ VGA_WIDTH
    decide
  have hentry : make_vgaentry 128 9 = 65408 := by decide
  rw [terminal_putchar_newline t (by omega),
    terminal_putchar_printable _ 128 (by decide) (by decide) hcol]
  show terminal_putentryat t.terminal_buffer 128 t.terminal_color 1 (t.terminal_row + 1) 81
    = 65408
  rw [hrow, hcolor, terminal_putentryat_apply _ _ _ _ _ _ (by omega),
    if_pos (show 81 = (0 + 1) * 80 + 1 by decide), hentry]

theorem terminal_after_high_char_cell :
    terminal_after_high_char.terminal_buffer 81 = 65408 := by
  have hstep : terminal_after_high_char
      = terminal_putchar (terminal_putchar ( terminal_initialize 9 0 (fun _ => 0)) 10) 128 := by
    simp only [terminal_after_high_char, terminal_putchars]
  have hcolor : ( terminal_initialize 9 0 (fun _ => 0)).terminal_color = 9 := by
    simp only [terminal_clear, terminal_initialize]
    decide
  have hrow : ( terminal_initialize 9 0 (fun _ => 0)).terminal_row = 0 := by
    simp only [terminal_clear, terminal_initialize]
  rw [hstep]
  exact terminal_newline_high_char_cell _ hrow hcolor

/-- C18, amended: when the cells of rows 1 to `VGA_HEIGHT-1` hold values of
`make_vgaentry`, as every cell does in a state reached from
terminal_initialize by `terminal_putchar` calls, then after
`terminal_push_back_line` the cell in column `c` of row `r`, for every row
`r` in 0..`VGA_HEIGHT-2`, holds exactly the entry the cell in column `c` of row
`r+1` held before, whatever its character byte; `terminal_column` is 0 and
`terminal_row` is `VGA_HEIGHT-1`. -/
theorem terminal_push_back_line_moves_written_rows (t : terminal_t)
    (hwritten : ∀ k, 80 ≤ k → k < 2000 → vga_entry_written (t.terminal_buffer k)) :
    (∀ r c, r < 24 → c < 80 →
      (terminal_push_back_line t).terminal_buffer (r * 80 + c)
        = t.terminal_buffer ((r + 1) * 80 + c)) ∧
    (terminal_push_back_line t).terminal_column = 0 ∧
    (terminal_push_back_line t).terminal_row = VGA_HEIGHT - 1 := by
  refine ⟨?_, ?_, ?_⟩
  · intro r c hr hc
    rw [terminal_push_back_line_cell t r c (by omega) hc]
    exact vga_scrolled_entry_of_written _ (hwritten _ (by omega) (by omega))
  · simp only [terminal_push_back_line]
  · simp only [terminal_push_back_line]

/-- C18 amended, at the terminal reached from terminal_initialize by a newline
and the character `0x80`: the entry `0xff80` of column 1 of row 1 moves to
column 1 of row 0. -/
theorem terminal_push_back_line_moves_written_rows_witness :
    (∀ k, 80 ≤ k → k < 2000 →
      vga_entry_written (terminal_after_high_char.terminal_buffer k)) ∧
    terminal_after_high_char.terminal_buffer ((0 + 1) * 80 + 1) = 65408 ∧
    (terminal_push_back_line terminal_after_high_char).terminal_buffer (0 * 80 + 1)
      = terminal_after_high_char.terminal_buffer ((0 + 1) * 80 + 1) ∧
    (terminal_push_back_line terminal_after_high_char).terminal_column = 0 ∧
    (terminal_push_back_line terminal_after_high_char).terminal_row = VGA_HEIGHT - 1 :=
  have hw : ∀ k, 80 ≤ k → k < 2000 →
      vga_entry_written (terminal_after_high_char.terminal_buffer k) :=
    fun k _ hk => terminal_reachable_written 9 0 (fun _ => 0) [10, 128] k hk
  ⟨hw, terminal_after_high_char_cell,
    (terminal_push_back_line_moves_written_rows terminal_after_high_char hw).1 0 1
      (by decide) (by decide),
    (terminal_push_back_line_moves_written_rows terminal_after_high_char hw).2.1,
    (terminal_push_back_line_moves_written_rows terminal_after_high_char hw).2.2⟩

end BluOS
